import Mathlib

/-!
Verification of the trace-to-chat transcript reconstruction logic of the
AskStantonAnnotation repository (`core/session_parser.py`), against a shallow
embedding of the Python source.  Python values appearing in trace `input` /
`output` payloads are modelled by the inductive type `PyVal`; fallible Python
code (code that can raise) is modelled in the `Except String` monad, the
error string standing for the exception.
-/

/-- Model of a Python/JSON value as found in Langfuse trace payloads:
`None`, booleans, integers, strings, lists and string-keyed dicts
(dicts are association lists with the keys unique and in insertion order). -/
inductive PyVal where
  | none : PyVal
  | bool : Bool → PyVal
  | int : Int → PyVal
  | str : String → PyVal
  | list : List PyVal → PyVal
  | dict : List (String × PyVal) → PyVal
deriving Repr

mutual

def PyVal.decEq : (a b : PyVal) → Decidable (a = b)
  | .none, .none => isTrue rfl
  | .bool x, .bool y =>
      if h : x = y then isTrue (congrArg PyVal.bool h)
      else isFalse (fun hh => h (PyVal.bool.inj hh))
  | .int x, .int y =>
      if h : x = y then isTrue (congrArg PyVal.int h)
      else isFalse (fun hh => h (PyVal.int.inj hh))
  | .str x, .str y =>
      if h : x = y then isTrue (congrArg PyVal.str h)
      else isFalse (fun hh => h (PyVal.str.inj hh))
  | .list xs, .list ys =>
      match PyVal.decEqList xs ys with
      | isTrue h => isTrue (congrArg PyVal.list h)
      | isFalse h => isFalse (fun hh => h (PyVal.list.inj hh))
  | .dict xs, .dict ys =>
      match PyVal.decEqPairs xs ys with
      | isTrue h => isTrue (congrArg PyVal.dict h)
      | isFalse h => isFalse (fun hh => h (PyVal.dict.inj hh))
  | .none, .bool _ => isFalse (fun h => nomatch h)
  | .none, .int _ => isFalse (fun h => nomatch h)
  | .none, .str _ => isFalse (fun h => nomatch h)
  | .none, .list _ => isFalse (fun h => nomatch h)
  | .none, .dict _ => isFalse (fun h => nomatch h)
  | .bool _, .none => isFalse (fun h => nomatch h)
  | .bool _, .int _ => isFalse (fun h => nomatch h)
  | .bool _, .str _ => isFalse (fun h => nomatch h)
  | .bool _, .list _ => isFalse (fun h => nomatch h)
  | .bool _, .dict _ => isFalse (fun h => nomatch h)
  | .int _, .none => isFalse (fun h => nomatch h)
  | .int _, .bool _ => isFalse (fun h => nomatch h)
  | .int _, .str _ => isFalse (fun h => nomatch h)
  | .int _, .list _ => isFalse (fun h => nomatch h)
  | .int _, .dict _ => isFalse (fun h => nomatch h)
  | .str _, .none => isFalse (fun h => nomatch h)
  | .str _, .bool _ => isFalse (fun h => nomatch h)
  | .str _, .int _ => isFalse (fun h => nomatch h)
  | .str _, .list _ => isFalse (fun h => nomatch h)
  | .str _, .dict _ => isFalse (fun h => nomatch h)
  | .list _, .none => isFalse (fun h => nomatch h)
  | .list _, .bool _ => isFalse (fun h => nomatch h)
  | .list _, .int _ => isFalse (fun h => nomatch h)
  | .list _, .str _ => isFalse (fun h => nomatch h)
  | .list _, .dict _ => isFalse (fun h => nomatch h)
  | .dict _, .none => isFalse (fun h => nomatch h)
  | .dict _, .bool _ => isFalse (fun h => nomatch h)
  | .dict _, .int _ => isFalse (fun h => nomatch h)
  | .dict _, .str _ => isFalse (fun h => nomatch h)
  | .dict _, .list _ => isFalse (fun h => nomatch h)

def PyVal.decEqList : (xs ys : List PyVal) → Decidable (xs = ys)
  | [], [] => isTrue rfl
  | [], _ :: _ => isFalse (fun h => nomatch h)
  | _ :: _, [] => isFalse (fun h => nomatch h)
  | x :: xs, y :: ys =>
      match PyVal.decEq x y with
      | isFalse h1 => isFalse (fun hh => h1 (List.cons.inj hh).1)
      | isTrue h1 =>
        match PyVal.decEqList xs ys with
        | isTrue h2 => isTrue (by rw [h1, h2])
        | isFalse h2 => isFalse (fun hh => h2 (List.cons.inj hh).2)

def PyVal.decEqPairs : (xs ys : List (String × PyVal)) → Decidable (xs = ys)
  | [], [] => isTrue rfl
  | [], _ :: _ => isFalse (fun h => nomatch h)
  | _ :: _, [] => isFalse (fun h => nomatch h)
  | (k1, v1) :: xs, (k2, v2) :: ys =>
      if hk : k1 = k2 then
        match PyVal.decEq v1 v2 with
        | isFalse h1 => isFalse (fun hh => h1 (congrArg Prod.snd (List.cons.inj hh).1))
        | isTrue h1 =>
          match PyVal.decEqPairs xs ys with
          | isTrue h2 => isTrue (by rw [hk, h1, h2])
          | isFalse h2 => isFalse (fun hh => h2 (List.cons.inj hh).2)
      else isFalse (fun hh => hk (congrArg Prod.fst (List.cons.inj hh).1))

end

instance : DecidableEq PyVal := PyVal.decEq

/-- Python truthiness (`bool(v)`) for the modelled value shapes:
`None`, `False`, `0`, `""`, `[]` and the empty dict are falsy. -/
def PyVal.truthy : PyVal → Bool
  | .none => false
  | .bool b => b
  | .int n => decide (n ≠ 0)
  | .str s => decide (s ≠ "")
  | .list xs => decide (xs ≠ [])
  | .dict kvs => decide (kvs ≠ [])

/-- Dict key lookup (`d.get(k)` without a default): first pair with the key
(Python dict keys are unique, so first match is the match). -/
def lookupKey : List (String × PyVal) → String → Option PyVal
  | [], _ => Option.none
  | (k', v) :: rest, k => if k' = k then some v else lookupKey rest k

/-- `v.isStr` is true exactly on string values. -/
def PyVal.isStr : PyVal → Bool
  | .str _ => true
  | _ => false

/-- `v.isDict` is true exactly on dict values (the Python `isinstance(v, dict)` check). -/
def PyVal.isDict : PyVal → Bool
  | .dict _ => true
  | _ => false

mutual

/-- Python `repr(v)` for the modelled shapes (`str` on a dict/list prints the repr
of its elements; string values are printed in quotes). -/
def pyRepr : PyVal → String
  | .none => "None"
  | .bool b => if b then "True" else "False"
  | .int n => toString n
  | .str s => "\x27" ++ s ++ "\x27"
  | .list xs => "[" ++ pyReprItems xs ++ "]"
  | .dict kvs => "\x7b" ++ pyReprPairs kvs ++ "\x7d"

def pyReprItems : List PyVal → String
  | [] => ""
  | [x] => pyRepr x
  | x :: y :: rest => pyRepr x ++ ", " ++ pyReprItems (y :: rest)

def pyReprPairs : List (String × PyVal) → String
  | [] => ""
  | [(k, v)] => "\x27" ++ k ++ "\x27: " ++ pyRepr v
  | (k, v) :: p :: rest => "\x27" ++ k ++ "\x27: " ++ pyRepr v ++ ", " ++ pyReprPairs (p :: rest)

end

/-- Python `str(v)`: identical to `repr(v)` except on strings, which are
returned unquoted. -/
def pyStr : PyVal → String
  | .str s => s
  | v => pyRepr v

/-- Bool-valued prefix test on character lists (helper for Python `in` on strings). -/
def charsIsPfx : List Char → List Char → Bool
  | [], _ => true
  | _ :: _, [] => false
  | a :: as, b :: bs => decide (a = b) && charsIsPfx as bs

/-- Bool-valued contiguous-substring test on character lists. -/
def charsIsInfx (p : List Char) : List Char → Bool
  | [] => p.isEmpty
  | b :: rest => charsIsPfx p (b :: rest) || charsIsInfx p rest

/-- Python membership test `k in v` for a string key `k`: key membership for
dicts, element membership for lists, substring test for strings; any other
container raises `TypeError`. -/
def pyContains (v : PyVal) (k : String) : Except String Bool :=
  match v with
  | .dict kvs => Except.ok (kvs.any (fun kv => decide (kv.1 = k)))
  | .list xs => Except.ok (xs.any (fun x => decide (x = PyVal.str k)))
  | .str s => Except.ok (charsIsInfx k.data s.data)
  | _ => Except.error "TypeError: argument of type is not iterable"

/-- Python subscript `v[k]` for a string key `k`: dict lookup (raising `KeyError`
when absent); every non-dict shape raises `TypeError`. -/
def pyGetItemStr (v : PyVal) (k : String) : Except String PyVal :=
  match v with
  | .dict kvs =>
    match lookupKey kvs k with
    | some r => Except.ok r
    | Option.none => Except.error ("KeyError: " ++ k)
  | _ => Except.error "TypeError: value is not subscriptable by a string"

/-- Python iteration `for x in v`: lists yield their elements, strings their
one-character substrings, dicts their keys; other shapes raise `TypeError`. -/
def pyIter : PyVal → Except String (List PyVal)
  | .list xs => Except.ok xs
  | .str s => Except.ok (s.data.map (fun c => PyVal.str (String.mk [c])))
  | .dict kvs => Except.ok (kvs.map (fun kv => PyVal.str kv.1))
  | _ => Except.error "TypeError: value is not iterable"

/-- Code-point comparison of characters, as Python compares strings. -/
def charLtb (a b : Char) : Bool := decide (a.val.toNat < b.val.toNat)

/-- Code-point equality of characters. -/
def charEqb (a b : Char) : Bool := decide (a.val.toNat = b.val.toNat)

/-- Lexicographic `≤` on character lists by code point — the comparison Python
uses for `sort(key=...)` on the string timestamps. -/
def leChars : List Char → List Char → Bool
  | [], _ => true
  | _ :: _, [] => false
  | a :: as, b :: bs => charLtb a b || (charEqb a b && leChars as bs)

/-- Lexicographic `<` on character lists by code point. -/
def ltChars : List Char → List Char → Bool
  | [], [] => false
  | [], _ :: _ => true
  | _ :: _, [] => false
  | a :: as, b :: bs => charLtb a b || (charEqb a b && ltChars as bs)

/-- Python string `≤` (lexicographic by code point). -/
def strLeb (a b : String) : Bool := leChars a.data b.data

/-- Python string `<` (lexicographic by code point). -/
def strLtb (a b : String) : Bool := ltChars a.data b.data

theorem leChars_refl : ∀ l : List Char, leChars l l = true
  | [] => rfl
  | a :: as => by
      simp only [leChars, charLtb, charEqb, Bool.or_eq_true, Bool.and_eq_true,
        decide_eq_true_eq]
      exact Or.inr ⟨by trivial, leChars_refl as⟩

theorem leChars_total : ∀ a b : List Char, (leChars a b || leChars b a) = true
  | [], _ => by simp [leChars]
  | _ :: _, [] => by simp [leChars]
  | a :: as, b :: bs => by
      simp only [leChars, charLtb, charEqb, Bool.or_eq_true, Bool.and_eq_true,
        decide_eq_true_eq]
      rcases Nat.lt_trichotomy a.val.toNat b.val.toNat with h | h | h
      · exact Or.inl (Or.inl h)
      · have := leChars_total as bs
        simp only [Bool.or_eq_true] at this
        rcases this with h' | h'
        · exact Or.inl (Or.inr ⟨h, h'⟩)
        · exact Or.inr (Or.inr ⟨h.symm, h'⟩)
      · exact Or.inr (Or.inl h)

theorem leChars_trans : ∀ a b c : List Char,
    leChars a b = true → leChars b c = true → leChars a c = true
  | [], _, _, _, _ => rfl
  | _ :: _, [], _, h, _ => by simp [leChars] at h
  | _ :: _, _ :: _, [], _, h => by simp [leChars] at h
  | a :: as, b :: bs, c :: cs, h1, h2 => by
      simp only [leChars, charLtb, charEqb, Bool.or_eq_true, Bool.and_eq_true,
        decide_eq_true_eq] at h1 h2 ⊢
      rcases h1 with h1 | ⟨h1e, h1r⟩
      · rcases h2 with h2 | ⟨h2e, _⟩
        · exact Or.inl (Nat.lt_trans h1 h2)
        · exact Or.inl (h2e ▸ h1)
      · rcases h2 with h2 | ⟨h2e, h2r⟩
        · exact Or.inl (h1e ▸ h2)
        · exact Or.inr ⟨h1e.trans h2e, leChars_trans as bs cs h1r h2r⟩

theorem ltChars_not_ge : ∀ a b : List Char,
    ltChars a b = true → leChars b a = false
  | [], [], h => by simp [ltChars] at h
  | [], _ :: _, _ => rfl
  | _ :: _, [], h => by simp [ltChars] at h
  | a :: as, b :: bs, h => by
      simp only [ltChars, charLtb, charEqb, Bool.or_eq_true, Bool.and_eq_true,
        decide_eq_true_eq] at h
      simp only [leChars, charLtb, charEqb, Bool.or_eq_true, Bool.and_eq_true,
        decide_eq_true_eq, Bool.or_eq_false_iff, Bool.and_eq_false_iff]
      rcases h with h | ⟨he, hr⟩
      · constructor
        · simp only [decide_eq_false_iff_not]
          omega
        · left
          simp only [decide_eq_false_iff_not]
          omega
      · constructor
        · simp only [decide_eq_false_iff_not]
          omega
        · right
          exact ltChars_not_ge as bs hr

theorem strLeb_refl (a : String) : strLeb a a = true := leChars_refl a.data

theorem strLeb_total (a b : String) : (strLeb a b || strLeb b a) = true :=
  leChars_total a.data b.data

theorem strLeb_trans (a b c : String) :
    strLeb a b = true → strLeb b c = true → strLeb a c = true :=
  leChars_trans a.data b.data c.data

theorem strLtb_not_ge (a b : String) : strLtb a b = true → strLeb b a = false :=
  ltChars_not_ge a.data b.data

/-!
## `extract_message_content` (`core/session_parser.py`, lines 10–47)

The Python function walks a message value: a plain string is returned as is;
for a dict, a string `content` is returned, a list `content` is reduced to its
text parts and joined with `"\n"` (`'\n'.join(text_parts)` raises `TypeError`
when a collected part value is not a string), then a `text` field is returned
unchanged, and otherwise `str(message_data)` is returned.
-/

/-- The `text_parts` list accumulated by the loop of `extract_message_content`
over a list-shaped `content`: dict parts with `type == 'text'` contribute
`part.get('text', '')`, bare string parts contribute themselves, every other
part is skipped. -/
def textPartsOf : List PyVal → List PyVal
  | [] => []
  | p :: rest =>
    match p with
    | .dict kvs =>
      if (lookupKey kvs "type").getD PyVal.none = PyVal.str "text"
      then (lookupKey kvs "text").getD (PyVal.str "") :: textPartsOf rest
      else textPartsOf rest
    | .str s => PyVal.str s :: textPartsOf rest
    | _ => textPartsOf rest

/-- `allStrings vs` is `some` of the underlying strings when every value in
`vs` is a string, and `Option.none` otherwise (the shape check performed by
Python's `'\n'.join`). -/
def allStrings : List PyVal → Option (List String)
  | [] => some []
  | PyVal.str s :: rest =>
    match allStrings rest with
    | some ss => some (s :: ss)
    | Option.none => Option.none
  | _ => Option.none

/-- Embedding of `extract_message_content` (`core/session_parser.py` lines
10–47).  The result is a `PyVal` because the `text`-field branch returns the
field's value unchanged, whatever its type; the error branch models the
`TypeError` raised by `'\n'.join` on a non-string part value. -/
def extract_message_content (m : PyVal) : Except String PyVal :=
  match m with
  | .str s => Except.ok (PyVal.str s)
  | .dict kvs =>
    match lookupKey kvs "content" with
    | some (.str c) => Except.ok (PyVal.str c)
    | some (.list parts) =>
      match allStrings (textPartsOf parts) with
      | some ss => Except.ok (PyVal.str (String.intercalate "\n" ss))
      | Option.none => Except.error "TypeError: sequence item: expected str instance"
    | _ =>
      match lookupKey kvs "text" with
      | some v => Except.ok v
      | Option.none => Except.ok (PyVal.str (pyStr m))
  | v => Except.ok (PyVal.str (pyStr v))

/-!
## `parse_trace_messages` (`core/session_parser.py`, lines 50–109)
-/

/-- The `Trace` dataclass of `core/langfuse_client.py`: `input`, `output` and
`metadata` arrive as arbitrary parsed JSON (`PyVal.none` models Python `None`),
`session_id`, `name` and `user_id` are `Optional[str]`. -/
structure Trace where
  id : String
  timestamp : String
  name : Option String
  input : PyVal
  output : PyVal
  session_id : Option String
  user_id : Option String
  metadata : PyVal
deriving Repr, DecidableEq

/-- One message dict emitted by `parse_trace_messages`.  The Python code builds
a dict with exactly the keys `type`, `content`, `timestamp` and `trace_id`;
those four keys are the fields of this structure. -/
structure ChatMsg where
  type : String
  content : PyVal
  timestamp : String
  trace_id : String
deriving Repr, DecidableEq

/-- Body of the input-message loop of `parse_trace_messages` (lines 65–83) for
one element: non-dict elements are skipped; for a dict, the `type` tag
(defaulting to `'unknown'`) is mapped `human→user`, `ai→assistant`,
else `system`, and the extracted content is emitted with the trace's
timestamp and id. -/
def inEntry (t : Trace) (msg : PyVal) : Except String (List ChatMsg) :=
  match msg with
  | .dict kvs =>
    match extract_message_content (PyVal.dict kvs) with
    | Except.error e => Except.error e
    | Except.ok c =>
      let mt := (lookupKey kvs "type").getD (PyVal.str "unknown")
      let display :=
        if mt = PyVal.str "human" then "user"
        else if mt = PyVal.str "ai" then "assistant"
        else "system"
      Except.ok [{ type := display, content := c, timestamp := t.timestamp, trace_id := t.id }]
  | _ => Except.ok []

/-- Body of the output-message loop of `parse_trace_messages` (lines 87–107):
like `inEntry` but `human`-typed messages are skipped (`continue`) after
content extraction, and the remaining types map `ai→assistant`, else
`system`. -/
def outEntry (t : Trace) (msg : PyVal) : Except String (List ChatMsg) :=
  match msg with
  | .dict kvs =>
    match extract_message_content (PyVal.dict kvs) with
    | Except.error e => Except.error e
    | Except.ok c =>
      let mt := (lookupKey kvs "type").getD (PyVal.str "unknown")
      if mt = PyVal.str "human" then Except.ok []
      else
        let display := if mt = PyVal.str "ai" then "assistant" else "system"
        Except.ok [{ type := display, content := c, timestamp := t.timestamp, trace_id := t.id }]
  | _ => Except.ok []

/-- Runs a message loop body over the elements in order, concatenating the
emitted entries, and propagating the first raised exception. -/
def processMsgs (f : PyVal → Except String (List ChatMsg)) :
    List PyVal → Except String (List ChatMsg)
  | [] => Except.ok []
  | m :: ms =>
    match f m with
    | Except.error e => Except.error e
    | Except.ok a =>
      match processMsgs f ms with
      | Except.error e => Except.error e
      | Except.ok b => Except.ok (a ++ b)

/-- The guard `trace.input and 'messages' in trace.input` (with Python's
short-circuit `and`, so the membership test — which can raise on a
non-container — only runs on a truthy value). -/
def hasMessages (v : PyVal) : Except String Bool :=
  if v.truthy then pyContains v "messages" else Except.ok false

/-- The input half of `parse_trace_messages` (lines 64–83): if the guard
holds, iterate `trace.input['messages']` with the input loop body. -/
def parseInputPart (t : Trace) : Except String (List ChatMsg) :=
  match hasMessages t.input with
  | Except.error e => Except.error e
  | Except.ok false => Except.ok []
  | Except.ok true =>
    match pyGetItemStr t.input "messages" with
    | Except.error e => Except.error e
    | Except.ok msv =>
      match pyIter msv with
      | Except.error e => Except.error e
      | Except.ok elems => processMsgs (inEntry t) elems

/-- The output half of `parse_trace_messages` (lines 86–107). -/
def parseOutputPart (t : Trace) : Except String (List ChatMsg) :=
  match hasMessages t.output with
  | Except.error e => Except.error e
  | Except.ok false => Except.ok []
  | Except.ok true =>
    match pyGetItemStr t.output "messages" with
    | Except.error e => Except.error e
    | Except.ok msv =>
      match pyIter msv with
      | Except.error e => Except.error e
      | Except.ok elems => processMsgs (outEntry t) elems

/-- Embedding of `parse_trace_messages` (`core/session_parser.py` lines
50–109): the input-message loop runs first, then the output-message loop, and
the emitted entries are concatenated in that order. -/
def parse_trace_messages (t : Trace) : Except String (List ChatMsg) :=
  match parseInputPart t with
  | Except.error e => Except.error e
  | Except.ok ms1 =>
    match parseOutputPart t with
    | Except.error e => Except.error e
    | Except.ok ms2 => Except.ok (ms1 ++ ms2)

/-!
## `parse_session_to_chat_format` and `get_session_chat_data`
(`core/session_parser.py`, lines 112–174)
-/

/-- The `Session` dataclass of `core/langfuse_client.py`. -/
structure Session where
  id : String
  created_at : String
  project_id : String
  environment : Option String
  traces : List Trace
deriving Repr, DecidableEq

/-- The per-thread metadata dict built when a thread is first seen
(lines 132–141): the thread id (which may be any value taken from
`trace.metadata['thread_id']`) plus pass-through session fields. -/
structure ThreadMeta where
  thread_id : PyVal
  session_id : String
  created_at : String
  project_id : String
  environment : Option String
deriving Repr, DecidableEq

/-- One value of the `threads` dict: accumulated messages and the metadata. -/
structure ThreadData where
  messages : List ChatMsg
  metadata : ThreadMeta
deriving Repr, DecidableEq

/-- Thread-id derivation of `parse_session_to_chat_format` (lines 124–128):
`thread_id = trace.session_id or session.id` (Python `or`, so a `None` or
empty-string `session_id` falls back to the session's id), overridden by
`trace.metadata['thread_id']` when `trace.metadata` is truthy and contains
that key. -/
def threadIdOf (s : Session) (t : Trace) : Except String PyVal :=
  let base : PyVal := PyVal.str (match t.session_id with
    | some sid => if sid = "" then s.id else sid
    | Option.none => s.id)
  if t.metadata.truthy then
    match pyContains t.metadata "thread_id" with
    | Except.error e => Except.error e
    | Except.ok true => pyGetItemStr t.metadata "thread_id"
    | Except.ok false => Except.ok base
  else Except.ok base

/-- The fresh thread entry created at lines 132–141. -/
def newThreadData (s : Session) (tid : PyVal) : ThreadData :=
  { messages := []
    metadata := { thread_id := tid, session_id := s.id, created_at := s.created_at,
                  project_id := s.project_id, environment := s.environment } }

/-- `thread_id in threads` on the ordered `threads` dict. -/
def containsKeyT (threads : List (PyVal × ThreadData)) (tid : PyVal) : Bool :=
  threads.any (fun kv => decide (kv.1 = tid))

/-- `threads[thread_id]['messages'].extend(trace_messages)`: append `msgs` to
the entry keyed `tid`, leaving other entries unchanged. -/
def extendAt : List (PyVal × ThreadData) → PyVal → List ChatMsg → List (PyVal × ThreadData)
  | [], _, _ => []
  | (k, td) :: rest, tid, msgs =>
    if k = tid then (k, { td with messages := td.messages ++ msgs }) :: rest
    else (k, td) :: extendAt rest tid msgs

/-- One iteration of the `for trace in session.traces` loop (lines 124–145):
derive the thread id, create the thread entry if absent, parse the trace's
messages and extend the thread's message list. -/
def addTraceThreads (s : Session) (acc : List (PyVal × ThreadData)) (t : Trace) :
    Except String (List (PyVal × ThreadData)) :=
  match threadIdOf s t with
  | Except.error e => Except.error e
  | Except.ok tid =>
    let acc' := if containsKeyT acc tid then acc else acc ++ [(tid, newThreadData s tid)]
    match parse_trace_messages t with
    | Except.error e => Except.error e
    | Except.ok msgs => Except.ok (extendAt acc' tid msgs)

/-- The trace loop of `parse_session_to_chat_format`, folded over the traces in
order, threading the `threads` dict (modelled as an insertion-ordered
association list). -/
def buildThreadsAux (s : Session) (acc : List (PyVal × ThreadData)) :
    List Trace → Except String (List (PyVal × ThreadData))
  | [] => Except.ok acc
  | t :: ts =>
    match addTraceThreads s acc t with
    | Except.error e => Except.error e
    | Except.ok acc' => buildThreadsAux s acc' ts

/-- The `threads` dict after the trace loop, before per-thread sorting. -/
def buildThreads (s : Session) : Except String (List (PyVal × ThreadData)) :=
  buildThreadsAux s [] s.traces

/-- The sort key comparison of line 149: Python's stable
`sort(key=lambda x: x['timestamp'])` compares the string timestamps
lexicographically by code point. -/
def msgLe (a b : ChatMsg) : Prop := strLeb a.timestamp b.timestamp = true

instance : DecidableRel msgLe := fun a b =>
  inferInstanceAs (Decidable (strLeb a.timestamp b.timestamp = true))

instance : IsTotal ChatMsg msgLe where
  total a b := by
    have h := strLeb_total a.timestamp b.timestamp
    rcases Bool.or_eq_true_iff.mp h with h | h
    · exact Or.inl h
    · exact Or.inr h

instance : IsTrans ChatMsg msgLe where
  trans a b c := strLeb_trans a.timestamp b.timestamp c.timestamp

/-- Embedding of `parse_session_to_chat_format` (`core/session_parser.py`
lines 112–151): build the threads dict, then stably sort each thread's
message list by timestamp.  Python's `list.sort` is a stable sort by the key
comparison; a stable sort's output is uniquely determined by the comparison
and the input order, so it is embedded as the (stable) insertion sort under
`msgLe`. -/
def parse_session_to_chat_format (s : Session) :
    Except String (List (PyVal × ThreadData)) :=
  match buildThreads s with
  | Except.error e => Except.error e
  | Except.ok threads =>
    Except.ok (threads.map (fun kv =>
      (kv.1, { kv.2 with messages := kv.2.messages.insertionSort msgLe })))

/-- The top-level result dict of `get_session_chat_data` (lines 166–174). -/
structure SessionChatData where
  session_id : String
  created_at : String
  project_id : String
  environment : Option String
  threads : List (PyVal × ThreadData)
  total_threads : Nat
  total_messages : Nat
deriving Repr, DecidableEq

/-- Embedding of `get_session_chat_data` (`core/session_parser.py` lines
154–174): parse the session into threads and attach pass-through metadata and
derived counts. -/
def get_session_chat_data (s : Session) : Except String SessionChatData :=
  match parse_session_to_chat_format s with
  | Except.error e => Except.error e
  | Except.ok threads =>
    Except.ok { session_id := s.id, created_at := s.created_at,
                project_id := s.project_id, environment := s.environment,
                threads := threads, total_threads := threads.length,
                total_messages := (threads.map (fun kv => kv.2.messages.length)).sum }

/-!
## The trace-paired transcript variant

`core/tests.py` imports `format_tool_input`, `simplify_output_messages` and
related functions from `core.session_parser`, but the copy of
`core/session_parser.py` in the tree does not define them; the spec (§4)
documents them as the trace-paired variant.  They are modelled here from the
spec's algorithm description.
-/

/-- `msg.get(k, default)` on an arbitrary value: dict lookup with a default,
anything non-dict yields the default. -/
def pyGetD (m : PyVal) (k : String) (d : PyVal) : PyVal :=
  match m with
  | .dict kvs => (lookupKey kvs k).getD d
  | _ => d

/-- The `type` tag of a message (`msg.get('type')`). -/
def typeTagOf (m : PyVal) : PyVal := pyGetD m "type" PyVal.none

/-- `n` spaces, for JSON indentation. -/
def indentSp (n : Nat) : String := String.mk (List.replicate n ' ')

/-- Minimal JSON string escaping (backslash and double quote). -/
def jsonEscape (s : String) : String :=
  s.data.foldr
    (fun c acc =>
      (if c = '\\' then "\\\\" else if c = '"' then "\\\"" else String.mk [c]) ++ acc)
    ""

mutual

/-- Modelled from the spec: the pretty, human-readable serialization used by
`formatToolInput` (§4) — `json.dumps(args, indent=2)`-style output. -/
def jsonPretty (ind : Nat) : PyVal → String
  | .none => "null"
  | .bool b => if b then "true" else "false"
  | .int n => toString n
  | .str s => "\"" ++ jsonEscape s ++ "\""
  | .list [] => "[]"
  | .list (x :: xs) =>
    "[\n" ++ jsonPrettyItems (ind + 2) (x :: xs) ++ "\n" ++ indentSp ind ++ "]"
  | .dict [] => "\x7b\x7d"
  | .dict (p :: ps) =>
    "\x7b\n" ++ jsonPrettyPairs (ind + 2) (p :: ps) ++ "\n" ++ indentSp ind ++ "\x7d"

def jsonPrettyItems (ind : Nat) : List PyVal → String
  | [] => ""
  | [x] => indentSp ind ++ jsonPretty ind x
  | x :: y :: rest =>
    indentSp ind ++ jsonPretty ind x ++ ",\n" ++ jsonPrettyItems ind (y :: rest)

def jsonPrettyPairs (ind : Nat) : List (String × PyVal) → String
  | [] => ""
  | [(k, v)] => indentSp ind ++ "\"" ++ jsonEscape k ++ "\": " ++ jsonPretty ind v
  | (k, v) :: p :: rest =>
    indentSp ind ++ "\"" ++ jsonEscape k ++ "\": " ++ jsonPretty ind v ++ ",\n" ++
      jsonPrettyPairs ind (p :: rest)

end

/-- Modelled from the spec: `formatToolInput(args)` (§4) — absent from
`src/core/session_parser.py`, referenced by `core/tests.py`.  Empty/absent
args yield `null` (no tool-input block); otherwise a structured serialization
is returned.  Every modelled `PyVal` is serializable, so the
non-serializable-fallback branch of the spec cannot arise in the model and the
function never raises. -/
def format_tool_input (args : PyVal) : Option String :=
  if args.truthy then some (jsonPretty 0 args) else Option.none

/-- One display item of the trace-paired transcript: `{ai: text}` or
`{tool: {id, name, input, output}}` (§3 OutputItem). -/
inductive OutputItem where
  | ai : String → OutputItem
  | tool : PyVal → PyVal → Option String → Option PyVal → OutputItem
deriving Repr, DecidableEq

/-- Modelled from the spec: the text-part extraction of
`simplifyOutputMessages` step 2a (§4) — the `text` fields of `text`-typed
content parts, for joining with a single space. -/
def specTextParts : List PyVal → List String
  | [] => []
  | p :: rest =>
    match p with
    | .dict kvs =>
      if (lookupKey kvs "type").getD PyVal.none = PyVal.str "text"
      then (match (lookupKey kvs "text").getD (PyVal.str "") with
            | .str s => s
            | v => pyStr v) :: specTextParts rest
      else specTextParts rest
    | _ => specTextParts rest

/-- Modelled from the spec: the joined text of an `ai` message for
`simplifyOutputMessages` step 2a — string content taken as is, list content
reduced to its text parts joined by a single space. -/
def aiTextOf (m : PyVal) : String :=
  match pyGetD m "content" PyVal.none with
  | .str s => s
  | .list parts => String.intercalate " " (specTextParts parts)
  | _ => ""

/-- The `tool_calls` list of an `ai` message (`[]` when absent or not a list). -/
def toolCallsOf (m : PyVal) : List PyVal :=
  match pyGetD m "tool_calls" PyVal.none with
  | .list cs => cs
  | _ => []

/-- Lookup in the assignment list standing for a Python dict: the most recent
assignment to the key wins (assignments are prepended by `buildToolMap`), so
this lookup is pointwise equal to the real dict's lookup. -/
def mapGetPV (m : List (PyVal × PyVal)) (k : PyVal) : Option PyVal :=
  match m with
  | [] => Option.none
  | (k', v) :: rest => if k' = k then some v else mapGetPV rest k

/-- Modelled from the spec: step 1 of `simplifyOutputMessages` (§4) — a single
forward pass over the messages recording `tool_call_id → content` for every
`tool`-typed message.  The Python dict is modelled as the stack of its
assignments, most recent first, so a later assignment to the same key
overwrites the earlier one for every `mapGetPV` lookup, as in a Python
dict. -/
def buildToolMap (acc : List (PyVal × PyVal)) : List PyVal → List (PyVal × PyVal)
  | [] => acc
  | m :: rest =>
    buildToolMap
      (if typeTagOf m = PyVal.str "tool"
       then (pyGetD m "tool_call_id" PyVal.none, pyGetD m "content" PyVal.none) :: acc
       else acc)
      rest

/-- The completed `tool_call_id → content` map of step 1. -/
def toolOutputMap (msgs : List PyVal) : List (PyVal × PyVal) := buildToolMap [] msgs

/-- Modelled from the spec: the `{tool: {id, name, input, output}}` item
emitted for one `tool_calls` entry (§4 step 2b): `input` is
`formatToolInput(args)` and `output` is the map lookup, `null` when absent. -/
def emitToolItem (tm : List (PyVal × PyVal)) (c : PyVal) : OutputItem :=
  OutputItem.tool (pyGetD c "id" PyVal.none) (pyGetD c "name" PyVal.none)
    (format_tool_input (pyGetD c "args" PyVal.none))
    (mapGetPV tm (pyGetD c "id" PyVal.none))

/-- Modelled from the spec: the items emitted for one message in step 2 of
`simplifyOutputMessages` — for an `ai` message its non-empty joined text
followed by its tool-call items in `tool_calls` order; every other message
type emits nothing directly. -/
def emitMsg (tm : List (PyVal × PyVal)) (m : PyVal) : List OutputItem :=
  if typeTagOf m = PyVal.str "ai" then
    (if aiTextOf m = "" then [] else [OutputItem.ai (aiTextOf m)]) ++
      (toolCallsOf m).map (emitToolItem tm)
  else []

/-- Modelled from the spec: `simplifyOutputMessages(messages)` (§4) — absent
from `src/core/session_parser.py`, referenced by `core/tests.py`.  Builds the
tool-output map in one pass, then scans the messages in order emitting items
per message. -/
def simplify_output_messages (msgs : List PyVal) : List OutputItem :=
  msgs.flatMap (emitMsg (toolOutputMap msgs))

/-- Claim-side reading of C1's pairing: the `content` of the `tool`-typed
message whose `tool_call_id` equals the call id (first match on a forward
scan), or `null` if no such message exists. -/
def firstToolOutput : List PyVal → PyVal → Option PyVal
  | [], _ => Option.none
  | m :: rest, cid =>
    if typeTagOf m = PyVal.str "tool" ∧ pyGetD m "tool_call_id" PyVal.none = cid
    then some (pyGetD m "content" PyVal.none)
    else firstToolOutput rest cid

/-- The `tool_call_id`s of the `tool`-typed messages, in order. -/
def toolIdsOf (msgs : List PyVal) : List PyVal :=
  (msgs.filter (fun m => decide (typeTagOf m = PyVal.str "tool"))).map
    (fun m => pyGetD m "tool_call_id" PyVal.none)

/-!
## Claim-side definitions and shared lemmas
-/

/-- Association-list lookup on the `threads` dict. -/
def threadLookup : List (PyVal × ThreadData) → PyVal → Option ThreadData
  | [], _ => Option.none
  | (k', td) :: rest, k => if k' = k then some td else threadLookup rest k

/-- The string carried by a string value (`""` on any other shape; used only
under hypotheses forcing the value to be a string). -/
def pvString : PyVal → String
  | .str s => s
  | _ => ""

/-- The extracted content of a message when extraction succeeds
(`PyVal.none` on a raising input; used only under success hypotheses). -/
def extractD (m : PyVal) : PyVal :=
  match extract_message_content m with
  | Except.ok v => v
  | Except.error _ => PyVal.none

/-- Whether `extract_message_content` succeeds on `m`. -/
def extractOkB (m : PyVal) : Bool :=
  match extract_message_content m with
  | Except.ok _ => true
  | Except.error _ => false

/-- Claim-side (C2, amended): the entry list an input message contributes —
one entry per dict-shaped message, display type `human→user`, `ai→assistant`,
else `system`. -/
def specInEntry (t : Trace) (m : PyVal) : List ChatMsg :=
  match m with
  | .dict kvs =>
    [{ type :=
        if (lookupKey kvs "type").getD (PyVal.str "unknown") = PyVal.str "human" then "user"
        else if (lookupKey kvs "type").getD (PyVal.str "unknown") = PyVal.str "ai" then "assistant"
        else "system"
       content := extractD m, timestamp := t.timestamp, trace_id := t.id }]
  | _ => []

/-- Claim-side (C2, amended): the entry list an output message contributes —
nothing for a `human`-typed message, otherwise one entry with display type
`ai→assistant`, else `system`. -/
def specOutEntry (t : Trace) (m : PyVal) : List ChatMsg :=
  match m with
  | .dict kvs =>
    if (lookupKey kvs "type").getD (PyVal.str "unknown") = PyVal.str "human" then []
    else
      [{ type :=
          if (lookupKey kvs "type").getD (PyVal.str "unknown") = PyVal.str "ai" then "assistant"
          else "system"
         content := extractD m, timestamp := t.timestamp, trace_id := t.id }]
  | _ => []

/-- Claim-side (C4, amended): the strings joined by newline for a list-shaped
content — `text`-typed parts contribute their `text` field (as a string,
defaulting to `""`), bare string parts contribute themselves, every other
part is skipped. -/
def amendedTextParts : List PyVal → List String
  | [] => []
  | p :: rest =>
    match p with
    | .dict kvs =>
      if (lookupKey kvs "type").getD PyVal.none = PyVal.str "text"
      then pvString ((lookupKey kvs "text").getD (PyVal.str "")) :: amendedTextParts rest
      else amendedTextParts rest
    | .str s => s :: amendedTextParts rest
    | _ => amendedTextParts rest

/-- Claim-side (C7, amended): the inputs on which `extract_message_content`
returns a string without raising — everything except a dict whose reached
branch is a `text` field holding a non-string, or a list-shaped content one of
whose collected part values is not a string. -/
def wfExtract (m : PyVal) : Bool :=
  match m with
  | .dict kvs =>
    match lookupKey kvs "content" with
    | some (.str _) => true
    | some (.list parts) => (textPartsOf parts).all PyVal.isStr
    | _ =>
      match lookupKey kvs "text" with
      | some v => v.isStr
      | Option.none => true
  | _ => true

/-- Claim-side (C7): inputs of unrecognized shape — not a string, and if a
dict then without a usable `content` field and without a `text` field. -/
def unrecognizedShape (m : PyVal) : Bool :=
  match m with
  | .str _ => false
  | .dict kvs =>
    (match lookupKey kvs "content" with
     | some (.str _) => false
     | some (.list _) => false
     | _ => true) && (lookupKey kvs "text").isNone
  | _ => true

theorem allStrings_of_all : ∀ vs : List PyVal,
    vs.all PyVal.isStr = true → allStrings vs = some (vs.map pvString)
  | [], _ => rfl
  | v :: vs, h => by
      simp only [List.all_cons, Bool.and_eq_true] at h
      cases v with
      | str s => simp [allStrings, pvString, allStrings_of_all vs h.2]
      | none => simp [PyVal.isStr] at h
      | bool b => simp [PyVal.isStr] at h
      | int n => simp [PyVal.isStr] at h
      | list xs => simp [PyVal.isStr] at h
      | dict kvs => simp [PyVal.isStr] at h

theorem textPartsOf_map_pvString : ∀ parts : List PyVal,
    (textPartsOf parts).map pvString = amendedTextParts parts
  | [] => rfl
  | p :: rest => by
      cases p with
      | dict kvs =>
        by_cases h : (lookupKey kvs "type").getD PyVal.none = PyVal.str "text"
        · simp [textPartsOf, amendedTextParts, h, textPartsOf_map_pvString rest]
        · simp [textPartsOf, amendedTextParts, h, textPartsOf_map_pvString rest]
      | str s => simp [textPartsOf, amendedTextParts, pvString, textPartsOf_map_pvString rest]
      | none => simp [textPartsOf, amendedTextParts, textPartsOf_map_pvString rest]
      | bool b => simp [textPartsOf, amendedTextParts, textPartsOf_map_pvString rest]
      | int n => simp [textPartsOf, amendedTextParts, textPartsOf_map_pvString rest]
      | list xs => simp [textPartsOf, amendedTextParts, textPartsOf_map_pvString rest]

theorem lookupKey_any : ∀ (kvs : List (String × PyVal)) (k : String) (v : PyVal),
    lookupKey kvs k = some v → kvs.any (fun kv => decide (kv.1 = k)) = true
  | [], _, _, h => by simp [lookupKey] at h
  | (k', w) :: rest, k, v, h => by
      by_cases hk : k' = k
      · simp [hk]
      · simp only [lookupKey, if_neg hk] at h
        simp only [List.any_cons, Bool.or_eq_true]
        exact Or.inr (lookupKey_any rest k v h)

theorem lookupKey_ne_nil (kvs : List (String × PyVal)) (k : String) (v : PyVal)
    (h : lookupKey kvs k = some v) : kvs ≠ [] := by
  intro hnil
  subst hnil
  simp [lookupKey] at h

theorem parseInputPart_dict (t : Trace) (ivs : List (String × PyVal)) (ms : List PyVal)
    (hin : t.input = PyVal.dict ivs)
    (hm : lookupKey ivs "messages" = some (PyVal.list ms)) :
    parseInputPart t = processMsgs (inEntry t) ms := by
  have hne : ivs ≠ [] := lookupKey_ne_nil ivs "messages" _ hm
  have hany := lookupKey_any ivs "messages" _ hm
  simp [parseInputPart, hasMessages, hin, PyVal.truthy, hne, pyContains, hany,
    pyGetItemStr, hm, pyIter]

theorem parseOutputPart_dict (t : Trace) (ovs : List (String × PyVal)) (ms : List PyVal)
    (hout : t.output = PyVal.dict ovs)
    (hm : lookupKey ovs "messages" = some (PyVal.list ms)) :
    parseOutputPart t = processMsgs (outEntry t) ms := by
  have hne : ovs ≠ [] := lookupKey_ne_nil ovs "messages" _ hm
  have hany := lookupKey_any ovs "messages" _ hm
  simp [parseOutputPart, hasMessages, hout, PyVal.truthy, hne, pyContains, hany,
    pyGetItemStr, hm, pyIter]

theorem processMsgs_specIn (t : Trace) : ∀ ms : List PyVal,
    (∀ m ∈ ms, m.isDict = true → extractOkB m = true) →
    processMsgs (inEntry t) ms = Except.ok (ms.flatMap (specInEntry t))
  | [], _ => rfl
  | m :: ms, h => by
      have hrest := processMsgs_specIn t ms (fun m' hm' => h m' (List.mem_cons_of_mem _ hm'))
      cases m with
      | dict kvs =>
        have hok : extractOkB (PyVal.dict kvs) = true :=
          h _ (List.mem_cons_self _ _) rfl
        unfold extractOkB at hok
        cases hc : extract_message_content (PyVal.dict kvs) with
        | error e => rw [hc] at hok; simp at hok
        | ok c =>
          simp [processMsgs, inEntry, hc, hrest, specInEntry, extractD]
      | str s => simp [processMsgs, inEntry, hrest, specInEntry]
      | none => simp [processMsgs, inEntry, hrest, specInEntry]
      | bool b => simp [processMsgs, inEntry, hrest, specInEntry]
      | int n => simp [processMsgs, inEntry, hrest, specInEntry]
      | list xs => simp [processMsgs, inEntry, hrest, specInEntry]

theorem processMsgs_specOut (t : Trace) : ∀ ms : List PyVal,
    (∀ m ∈ ms, m.isDict = true → extractOkB m = true) →
    processMsgs (outEntry t) ms = Except.ok (ms.flatMap (specOutEntry t))
  | [], _ => rfl
  | m :: ms, h => by
      have hrest := processMsgs_specOut t ms (fun m' hm' => h m' (List.mem_cons_of_mem _ hm'))
      cases m with
      | dict kvs =>
        have hok : extractOkB (PyVal.dict kvs) = true :=
          h _ (List.mem_cons_self _ _) rfl
        unfold extractOkB at hok
        cases hc : extract_message_content (PyVal.dict kvs) with
        | error e => rw [hc] at hok; simp at hok
        | ok c =>
          by_cases hh : (lookupKey kvs "type").getD (PyVal.str "unknown") = PyVal.str "human"
          · simp [processMsgs, outEntry, hc, hh, hrest, specOutEntry]
          · simp [processMsgs, outEntry, hc, hh, hrest, specOutEntry, extractD]
      | str s => simp [processMsgs, outEntry, hrest, specOutEntry]
      | none => simp [processMsgs, outEntry, hrest, specOutEntry]
      | bool b => simp [processMsgs, outEntry, hrest, specOutEntry]
      | int n => simp [processMsgs, outEntry, hrest, specOutEntry]
      | list xs => simp [processMsgs, outEntry, hrest, specOutEntry]

theorem inEntry_prov (t : Trace) (msg : PyVal) (es : List ChatMsg)
    (h : inEntry t msg = Except.ok es) :
    ∀ e ∈ es, e.timestamp = t.timestamp ∧ e.trace_id = t.id := by
  cases msg with
  | dict kvs =>
    simp only [inEntry] at h
    cases hc : extract_message_content (PyVal.dict kvs) with
    | error e' => rw [hc] at h; simp at h
    | ok c =>
      rw [hc] at h
      simp only [Except.ok.injEq] at h
      subst h
      intro e he
      simp only [List.mem_singleton] at he
      subst he
      exact ⟨rfl, rfl⟩
  | str s => simp only [inEntry, Except.ok.injEq] at h; subst h; simp
  | none => simp only [inEntry, Except.ok.injEq] at h; subst h; simp
  | bool b => simp only [inEntry, Except.ok.injEq] at h; subst h; simp
  | int n => simp only [inEntry, Except.ok.injEq] at h; subst h; simp
  | list xs => simp only [inEntry, Except.ok.injEq] at h; subst h; simp

theorem outEntry_prov (t : Trace) (msg : PyVal) (es : List ChatMsg)
    (h : outEntry t msg = Except.ok es) :
    ∀ e ∈ es, e.timestamp = t.timestamp ∧ e.trace_id = t.id := by
  cases msg with
  | dict kvs =>
    simp only [outEntry] at h
    cases hc : extract_message_content (PyVal.dict kvs) with
    | error e' => rw [hc] at h; simp at h
    | ok c =>
      simp only [hc] at h
      by_cases hh : (lookupKey kvs "type").getD (PyVal.str "unknown") = PyVal.str "human"
      · rw [if_pos hh] at h
        simp only [Except.ok.injEq] at h
        subst h
        simp
      · rw [if_neg hh] at h
        simp only [Except.ok.injEq] at h
        subst h
        intro e he
        simp only [List.mem_singleton] at he
        subst he
        exact ⟨rfl, rfl⟩
  | str s => simp only [outEntry, Except.ok.injEq] at h; subst h; simp
  | none => simp only [outEntry, Except.ok.injEq] at h; subst h; simp
  | bool b => simp only [outEntry, Except.ok.injEq] at h; subst h; simp
  | int n => simp only [outEntry, Except.ok.injEq] at h; subst h; simp
  | list xs => simp only [outEntry, Except.ok.injEq] at h; subst h; simp

theorem processMsgs_prov (P : ChatMsg → Prop) (f : PyVal → Except String (List ChatMsg))
    (hf : ∀ msg es', f msg = Except.ok es' → ∀ e ∈ es', P e) :
    ∀ (ms : List PyVal) (es : List ChatMsg),
      processMsgs f ms = Except.ok es → ∀ e ∈ es, P e
  | [], es, h => by
      simp only [processMsgs, Except.ok.injEq] at h
      subst h
      simp
  | m :: ms, es, h => by
      unfold processMsgs at h
      cases hfm : f m with
      | error e' => rw [hfm] at h; simp at h
      | ok a =>
        rw [hfm] at h
        cases hr : processMsgs f ms with
        | error e' => rw [hr] at h; simp at h
        | ok b =>
          rw [hr] at h
          simp only [Except.ok.injEq] at h
          subst h
          intro e he
          rcases List.mem_append.mp he with he | he
          · exact hf m a hfm e he
          · exact processMsgs_prov P f hf ms b hr e he

theorem parseInputPart_prov (t : Trace) (es : List ChatMsg)
    (h : parseInputPart t = Except.ok es) :
    ∀ e ∈ es, e.timestamp = t.timestamp ∧ e.trace_id = t.id := by
  unfold parseInputPart at h
  cases h1 : hasMessages t.input with
  | error e' => rw [h1] at h; simp at h
  | ok b =>
    rw [h1] at h
    cases b with
    | false =>
      simp only [Except.ok.injEq] at h
      subst h
      simp
    | true =>
      cases h2 : pyGetItemStr t.input "messages" with
      | error e' => simp [h2] at h
      | ok msv =>
        simp only [h2] at h
        cases h3 : pyIter msv with
        | error e' => simp [h3] at h
        | ok elems =>
          simp only [h3] at h
          exact processMsgs_prov _ _ (inEntry_prov t) elems es h

theorem parseOutputPart_prov (t : Trace) (es : List ChatMsg)
    (h : parseOutputPart t = Except.ok es) :
    ∀ e ∈ es, e.timestamp = t.timestamp ∧ e.trace_id = t.id := by
  unfold parseOutputPart at h
  cases h1 : hasMessages t.output with
  | error e' => rw [h1] at h; simp at h
  | ok b =>
    rw [h1] at h
    cases b with
    | false =>
      simp only [Except.ok.injEq] at h
      subst h
      simp
    | true =>
      cases h2 : pyGetItemStr t.output "messages" with
      | error e' => simp [h2] at h
      | ok msv =>
        simp only [h2] at h
        cases h3 : pyIter msv with
        | error e' => simp [h3] at h
        | ok elems =>
          simp only [h3] at h
          exact processMsgs_prov _ _ (outEntry_prov t) elems es h

theorem parse_trace_messages_parts (t : Trace) (inp out : List ChatMsg)
    (hin : parseInputPart t = Except.ok inp)
    (hout : parseOutputPart t = Except.ok out) :
    parse_trace_messages t = Except.ok (inp ++ out) := by
  unfold parse_trace_messages
  rw [hin, hout]

theorem parse_trace_messages_prov (t : Trace) (es : List ChatMsg)
    (h : parse_trace_messages t = Except.ok es) :
    ∀ e ∈ es, e.timestamp = t.timestamp ∧ e.trace_id = t.id := by
  unfold parse_trace_messages at h
  cases h1 : parseInputPart t with
  | error e' => rw [h1] at h; simp at h
  | ok ms1 =>
    rw [h1] at h
    cases h2 : parseOutputPart t with
    | error e' => rw [h2] at h; simp at h
    | ok ms2 =>
      rw [h2] at h
      simp only [Except.ok.injEq] at h
      subst h
      intro e he
      rcases List.mem_append.mp he with he | he
      · exact parseInputPart_prov t ms1 h1 e he
      · exact parseOutputPart_prov t ms2 h2 e he

theorem lookupKey_none_any : ∀ (kvs : List (String × PyVal)) (k : String),
    lookupKey kvs k = Option.none → kvs.any (fun kv => decide (kv.1 = k)) = false
  | [], _, _ => rfl
  | (k', w) :: rest, k, h => by
      by_cases hk : k' = k
      · simp [lookupKey, hk] at h
      · simp only [lookupKey, if_neg hk] at h
        simp only [List.any_cons, Bool.or_eq_false_iff]
        exact ⟨by simp [hk], lookupKey_none_any rest k h⟩

/-!
## Demonstration data used by the witness theorems
-/

/-- A `human` input message with plain string content. -/
def demoHuman : PyVal :=
  PyVal.dict [("type", PyVal.str "human"), ("content", PyVal.str "What is the weather in Paris?")]

/-- An `ai` message whose content is a list with one text part. -/
def demoAiParts : PyVal :=
  PyVal.dict [("type", PyVal.str "ai"),
    ("content", PyVal.list [PyVal.dict [("type", PyVal.str "text"), ("text", PyVal.str "Checking.")]])]

/-- A well-formed trace: one human input message, echoed input plus an AI
reply in the output. -/
def demoTrace : Trace :=
  { id := "trace_123", timestamp := "2024-01-01T12:00:00Z", name := Option.none,
    input := PyVal.dict [("messages", PyVal.list [demoHuman])],
    output := PyVal.dict [("messages", PyVal.list [demoHuman, demoAiParts])],
    session_id := some "sess_1", user_id := Option.none, metadata := PyVal.none }

/-- A session holding `demoTrace`. -/
def demoSession : Session :=
  { id := "session_456", created_at := "2024-01-01T11:30:00Z", project_id := "project_789",
    environment := some "production", traces := [demoTrace] }

/-!
## C8 — determinism of the builder
-/

/-- Claim C8 (confirmed): `get_session_chat_data` is a pure function of its
input — structurally equal sessions yield structurally identical results, and
no hidden mutable state exists in the embedding (the function reads nothing
but its argument). -/
theorem c8_deterministic (s₁ s₂ : Session) (h : s₁ = s₂) :
    get_session_chat_data s₁ = get_session_chat_data s₂ :=
  congrArg get_session_chat_data h

/-- Witness for C8 at a concrete session. -/
theorem c8_deterministic_witness :
    get_session_chat_data demoSession = get_session_chat_data demoSession :=
  c8_deterministic demoSession demoSession rfl

/-!
## C4 — text extraction from list-shaped content
-/

/-- The C4 counterexample message: a list content holding a text part and a
bare string part. -/
def c4CexMsg : PyVal :=
  PyVal.dict [("content", PyVal.list
    [PyVal.dict [("type", PyVal.str "text"), ("text", PyVal.str "a")], PyVal.str "s"])]

/-- Counterexample to C4 as stated: the claim says parts of every shape other
than `type == "text"` dicts are skipped, but `extract_message_content` also
collects bare string parts — on `[{type: text, text: "a"}, "s"]` it returns
`"a\ns"`, not the claimed `"a"`. -/
theorem c4_text_parts_counterexample :
    extract_message_content c4CexMsg = Except.ok (PyVal.str "a\ns") ∧
      ("a\ns" : String) ≠ "a" :=
  ⟨rfl, by decide⟩

/-- Claim C4 (amended): for list-shaped content whose collected part values
are strings, extraction returns the `text` fields of the `text`-tagged parts
and the bare string parts themselves, in order, joined by newline; parts of
every other shape are skipped. -/
theorem c4_text_parts_amended (kvs : List (String × PyVal)) (parts : List PyVal)
    (hc : lookupKey kvs "content" = some (PyVal.list parts))
    (hgood : (textPartsOf parts).all PyVal.isStr = true) :
    extract_message_content (PyVal.dict kvs) =
      Except.ok (PyVal.str (String.intercalate "\n" (amendedTextParts parts))) := by
  have h1 := allStrings_of_all _ hgood
  rw [textPartsOf_map_pvString] at h1
  simp [extract_message_content, hc, h1]

/-- The example parts of C4: text "a", an image part, text "b". -/
def c4ExampleParts : List PyVal :=
  [PyVal.dict [("type", PyVal.str "text"), ("text", PyVal.str "a")],
   PyVal.dict [("type", PyVal.str "image"), ("url", PyVal.str "http://img")],
   PyVal.dict [("type", PyVal.str "text"), ("text", PyVal.str "b")]]

/-- Witness for the amended C4 at the claim's own example: the image part is
skipped and the result is `"a\nb"`. -/
theorem c4_text_parts_amended_witness :
    extract_message_content (PyVal.dict [("content", PyVal.list c4ExampleParts)]) =
      Except.ok (PyVal.str "a\nb") := by
  have h := c4_text_parts_amended [("content", PyVal.list c4ExampleParts)]
    c4ExampleParts rfl (by decide)
  rw [h]
  rfl

/-!
## C7 — totality of `extract_message_content`
-/

/-- A message whose list content holds a text part with a non-string `text`
value: Python's `'\n'.join` raises `TypeError` on it. -/
def c7BadJoin : PyVal :=
  PyVal.dict [("content", PyVal.list [PyVal.dict [("type", PyVal.str "text"), ("text", PyVal.int 5)]])]

/-- A dict with no `content` but a non-string `text` field: returned as is,
so the result is not a string. -/
def c7TextPassthrough : PyVal := PyVal.dict [("text", PyVal.int 5)]

/-- Counterexample to C7 as stated: `extract_message_content` is not total —
a text part with non-string `text` makes the join raise — and does not always
return a string — a non-string `text` field is passed through unchanged. -/
theorem c7_total_counterexample :
    extract_message_content c7BadJoin =
        Except.error "TypeError: sequence item: expected str instance" ∧
      extract_message_content c7TextPassthrough = Except.ok (PyVal.int 5) ∧
      (PyVal.int 5).isStr = false :=
  ⟨rfl, rfl, rfl⟩

/-- Claim C7 (amended): on every input except a dict reaching a non-string
`text` field or a list content with a non-string collected part value,
`extract_message_content` returns a string without raising; and on every
input of unrecognized shape it returns the debug string representation
(`str(...)`) of the whole structure. -/
theorem c7_total_amended (m : PyVal) :
    (wfExtract m = true → ∃ s, extract_message_content m = Except.ok (PyVal.str s)) ∧
      (unrecognizedShape m = true →
        extract_message_content m = Except.ok (PyVal.str (pyStr m))) := by
  cases m with
  | dict kvs =>
    cases hc : lookupKey kvs "content" with
    | none =>
      cases ht : lookupKey kvs "text" with
      | none =>
        constructor
        · intro _
          exact ⟨pyStr (PyVal.dict kvs), by simp [extract_message_content, hc, ht]⟩
        · intro _
          simp [extract_message_content, hc, ht]
      | some v =>
        constructor
        · intro hwf
          simp only [wfExtract, hc, ht] at hwf
          cases v with
          | str s => exact ⟨s, by simp [extract_message_content, hc, ht]⟩
          | none => simp [PyVal.isStr] at hwf
          | bool b => simp [PyVal.isStr] at hwf
          | int n => simp [PyVal.isStr] at hwf
          | list xs => simp [PyVal.isStr] at hwf
          | dict kvs' => simp [PyVal.isStr] at hwf
        · intro hun
          simp [unrecognizedShape, hc, ht] at hun
    | some cv =>
      cases cv with
      | str c =>
        constructor
        · intro _
          exact ⟨c, by simp [extract_message_content, hc]⟩
        · intro hun
          simp [unrecognizedShape, hc] at hun
      | list parts =>
        constructor
        · intro hwf
          simp only [wfExtract, hc] at hwf
          have h1 := allStrings_of_all _ hwf
          exact ⟨String.intercalate "\n" ((textPartsOf parts).map pvString),
            by simp [extract_message_content, hc, h1]⟩
        · intro hun
          simp [unrecognizedShape, hc] at hun
      | none =>
        cases ht : lookupKey kvs "text" with
        | none =>
          constructor
          · intro _
            exact ⟨pyStr (PyVal.dict kvs), by simp [extract_message_content, hc, ht]⟩
          · intro _
            simp [extract_message_content, hc, ht]
        | some v =>
          constructor
          · intro hwf
            simp only [wfExtract, hc, ht] at hwf
            cases v with
            | str s => exact ⟨s, by simp [extract_message_content, hc, ht]⟩
            | none => simp [PyVal.isStr] at hwf
            | bool b => simp [PyVal.isStr] at hwf
            | int n => simp [PyVal.isStr] at hwf
            | list xs => simp [PyVal.isStr] at hwf
            | dict kvs' => simp [PyVal.isStr] at hwf
          · intro hun
            simp [unrecognizedShape, hc, ht] at hun
      | bool b =>
        cases ht : lookupKey kvs "text" with
        | none =>
          constructor
          · intro _
            exact ⟨pyStr (PyVal.dict kvs), by simp [extract_message_content, hc, ht]⟩
          · intro _
            simp [extract_message_content, hc, ht]
        | some v =>
          constructor
          · intro hwf
            simp only [wfExtract, hc, ht] at hwf
            cases v with
            | str s => exact ⟨s, by simp [extract_message_content, hc, ht]⟩
            | none => simp [PyVal.isStr] at hwf
            | bool b' => simp [PyVal.isStr] at hwf
            | int n => simp [PyVal.isStr] at hwf
            | list xs => simp [PyVal.isStr] at hwf
            | dict kvs' => simp [PyVal.isStr] at hwf
          · intro hun
            simp [unrecognizedShape, hc, ht] at hun
      | int n =>
        cases ht : lookupKey kvs "text" with
        | none =>
          constructor
          · intro _
            exact ⟨pyStr (PyVal.dict kvs), by simp [extract_message_content, hc, ht]⟩
          · intro _
            simp [extract_message_content, hc, ht]
        | some v =>
          constructor
          · intro hwf
            simp only [wfExtract, hc, ht] at hwf
            cases v with
            | str s => exact ⟨s, by simp [extract_message_content, hc, ht]⟩
            | none => simp [PyVal.isStr] at hwf
            | bool b => simp [PyVal.isStr] at hwf
            | int n' => simp [PyVal.isStr] at hwf
            | list xs => simp [PyVal.isStr] at hwf
            | dict kvs' => simp [PyVal.isStr] at hwf
          · intro hun
            simp [unrecognizedShape, hc, ht] at hun
      | dict dkvs =>
        cases ht : lookupKey kvs "text" with
        | none =>
          constructor
          · intro _
            exact ⟨pyStr (PyVal.dict kvs), by simp [extract_message_content, hc, ht]⟩
          · intro _
            simp [extract_message_content, hc, ht]
        | some v =>
          constructor
          · intro hwf
            simp only [wfExtract, hc, ht] at hwf
            cases v with
            | str s => exact ⟨s, by simp [extract_message_content, hc, ht]⟩
            | none => simp [PyVal.isStr] at hwf
            | bool b => simp [PyVal.isStr] at hwf
            | int n => simp [PyVal.isStr] at hwf
            | list xs => simp [PyVal.isStr] at hwf
            | dict kvs' => simp [PyVal.isStr] at hwf
          · intro hun
            simp [unrecognizedShape, hc, ht] at hun
  | str s => exact ⟨fun _ => ⟨s, rfl⟩, fun hun => by simp [unrecognizedShape] at hun⟩
  | none => exact ⟨fun _ => ⟨pyStr PyVal.none, rfl⟩, fun _ => rfl⟩
  | bool b => exact ⟨fun _ => ⟨pyStr (PyVal.bool b), rfl⟩, fun _ => rfl⟩
  | int n => exact ⟨fun _ => ⟨pyStr (PyVal.int n), rfl⟩, fun _ => rfl⟩
  | list xs => exact ⟨fun _ => ⟨pyStr (PyVal.list xs), rfl⟩, fun _ => rfl⟩

/-- Witness for the amended C7, discharging each hypothesis at a concrete
input: a well-formed message yields a string, and an unrecognized dict yields
its `str()` representation. -/
theorem c7_total_amended_witness :
    (∃ s, extract_message_content demoHuman = Except.ok (PyVal.str s)) ∧
      extract_message_content (PyVal.dict [("role", PyVal.str "meta")]) =
        Except.ok (PyVal.str (pyStr (PyVal.dict [("role", PyVal.str "meta")]))) :=
  ⟨(c7_total_amended demoHuman).1 (by decide),
   (c7_total_amended (PyVal.dict [("role", PyVal.str "meta")])).2 (by decide)⟩

/-!
## C2 — display-type mapping of input and output messages
-/

/-- A trace whose output holds a single dict-shaped `human` message. -/
def c2CexTrace : Trace :=
  { id := "t_c2", timestamp := "2024-01-01T00:00:00Z", name := Option.none,
    input := PyVal.none,
    output := PyVal.dict [("messages", PyVal.list
      [PyVal.dict [("type", PyVal.str "human"), ("content", PyVal.str "hi")]])],
    session_id := Option.none, user_id := Option.none, metadata := PyVal.none }

/-- Counterexample to C2 as stated: a dict-shaped `human` message in
`trace.output.messages` emits no entry at all — `parse_trace_messages` skips
output messages typed `human` — contradicting the claim that every dict-shaped
message in both arrays yields one entry (`user` for `human`). -/
theorem c2_display_type_counterexample :
    parse_trace_messages c2CexTrace = Except.ok [] ∧
      ¬ ∃ (es : List ChatMsg) (e : ChatMsg),
        parse_trace_messages c2CexTrace = Except.ok es ∧ e ∈ es ∧ e.type = "user" := by
  refine ⟨rfl, ?_⟩
  rintro ⟨es, e, hes, he, -⟩
  have h0 : parse_trace_messages c2CexTrace = Except.ok [] := rfl
  rw [h0] at hes
  injection hes with h
  subst h
  simp at he

/-- Claim C2 (amended): for every trace whose input and output blocks are
dicts with list-shaped `messages` (and whose dict messages extract without
raising), `parse_trace_messages` emits, in order, one entry per dict-shaped
input message with display type `human→user`, `ai→assistant`, else `system`,
followed by one entry per dict-shaped output message with `ai→assistant`,
else `system` — except that output messages typed `human` are skipped
entirely; non-dict elements emit nothing. -/
theorem c2_display_type_amended (t : Trace) (ivs ovs : List (String × PyVal))
    (msIn msOut : List PyVal)
    (hin : t.input = PyVal.dict ivs)
    (hmi : lookupKey ivs "messages" = some (PyVal.list msIn))
    (hout : t.output = PyVal.dict ovs)
    (hmo : lookupKey ovs "messages" = some (PyVal.list msOut))
    (hoki : ∀ m ∈ msIn, m.isDict = true → extractOkB m = true)
    (hoko : ∀ m ∈ msOut, m.isDict = true → extractOkB m = true) :
    parse_trace_messages t =
      Except.ok (msIn.flatMap (specInEntry t) ++ msOut.flatMap (specOutEntry t)) := by
  have h1 : parseInputPart t = Except.ok (msIn.flatMap (specInEntry t)) := by
    rw [parseInputPart_dict t ivs msIn hin hmi]
    exact processMsgs_specIn t msIn hoki
  have h2 : parseOutputPart t = Except.ok (msOut.flatMap (specOutEntry t)) := by
    rw [parseOutputPart_dict t ovs msOut hout hmo]
    exact processMsgs_specOut t msOut hoko
  exact parse_trace_messages_parts t _ _ h1 h2

/-- Witness for the amended C2 at `demoTrace`: the input human message maps
to `user`, the echoed human output message is skipped, and the AI output
message maps to `assistant`. -/
theorem c2_display_type_amended_witness :
    parse_trace_messages demoTrace = Except.ok
      [{ type := "user", content := PyVal.str "What is the weather in Paris?",
         timestamp := "2024-01-01T12:00:00Z", trace_id := "trace_123" },
       { type := "assistant", content := PyVal.str "Checking.",
         timestamp := "2024-01-01T12:00:00Z", trace_id := "trace_123" }] := by
  have h := c2_display_type_amended demoTrace [("messages", PyVal.list [demoHuman])]
    [("messages", PyVal.list [demoHuman, demoAiParts])]
    [demoHuman] [demoHuman, demoAiParts]
    rfl rfl rfl rfl (by decide) (by decide)
  rw [h]
  rfl

/-!
## C3 — silently skipped malformed input blocks
-/

/-- A trace with no input and no output structure at all. -/
def c3CexTrace : Trace :=
  { id := "t_c3", timestamp := "2024-01-01T00:00:00Z", name := Option.none,
    input := PyVal.none, output := PyVal.none,
    session_id := Option.none, user_id := Option.none, metadata := PyVal.none }

/-- Counterexample to C3 as stated: on a trace whose input structure is
absent, `parse_trace_messages` silently produces a (empty) result and raises
nothing — no `MalformedTraceError` propagates. -/
theorem c3_malformed_counterexample :
    parse_trace_messages c3CexTrace = Except.ok [] ∧
      ∀ e, parse_trace_messages c3CexTrace ≠ Except.error e := by
  refine ⟨rfl, ?_⟩
  intro e h
  have h0 : parse_trace_messages c3CexTrace = Except.ok [] := rfl
  rw [h0] at h
  exact Except.noConfusion h

/-- Claim C3 (amended): for every trace whose input structure lacks the
minimal required shape (input absent, or its `messages` key absent or holding
an empty list), `parse_trace_messages` raises nothing: the input block
contributes no entries and the result is exactly the output-block parse. -/
theorem c3_malformed_amended (t : Trace)
    (hmal : t.input = PyVal.none ∨
      (∃ ivs, t.input = PyVal.dict ivs ∧ lookupKey ivs "messages" = Option.none) ∨
      (∃ ivs, t.input = PyVal.dict ivs ∧ lookupKey ivs "messages" = some (PyVal.list []))) :
    parseInputPart t = Except.ok [] ∧ parse_trace_messages t = parseOutputPart t := by
  have h1 : parseInputPart t = Except.ok [] := by
    rcases hmal with h | ⟨ivs, hin, hl⟩ | ⟨ivs, hin, hl⟩
    · simp [parseInputPart, hasMessages, h, PyVal.truthy]
    · by_cases hnil : ivs = []
      · subst hnil
        simp [parseInputPart, hasMessages, hin, PyVal.truthy]
      · have hany := lookupKey_none_any ivs "messages" hl
        simp [parseInputPart, hasMessages, hin, PyVal.truthy, hnil, pyContains, hany]
    · rw [parseInputPart_dict t ivs [] hin hl]
      rfl
  refine ⟨h1, ?_⟩
  unfold parse_trace_messages
  rw [h1]
  cases h2 : parseOutputPart t with
  | error e => rfl
  | ok ms => simp

/-- Witness for the amended C3: a trace with absent input but a well-formed
output block raises nothing and yields exactly the output entries. -/
theorem c3_malformed_amended_witness :
    parseInputPart c2CexTrace = Except.ok [] ∧
      parse_trace_messages c2CexTrace = parseOutputPart c2CexTrace :=
  c3_malformed_amended c2CexTrace (Or.inl rfl)

/-!
## C10 — non-dict message elements are silently dropped
-/

theorem inEntry_nondict (t : Trace) (v : PyVal) (hv : v.isDict = false) :
    inEntry t v = Except.ok [] := by
  cases v with
  | dict kvs => simp [PyVal.isDict] at hv
  | str s => rfl
  | none => rfl
  | bool b => rfl
  | int n => rfl
  | list xs => rfl

theorem outEntry_nondict (t : Trace) (v : PyVal) (hv : v.isDict = false) :
    outEntry t v = Except.ok [] := by
  cases v with
  | dict kvs => simp [PyVal.isDict] at hv
  | str s => rfl
  | none => rfl
  | bool b => rfl
  | int n => rfl
  | list xs => rfl

theorem processMsgs_congr (f g : PyVal → Except String (List ChatMsg))
    (hfg : ∀ m, f m = g m) : ∀ ms : List PyVal, processMsgs f ms = processMsgs g ms
  | [] => rfl
  | m :: ms => by
      unfold processMsgs
      rw [hfg m, processMsgs_congr f g hfg ms]

theorem processMsgs_drop (f : PyVal → Except String (List ChatMsg)) (v : PyVal)
    (hv : f v = Except.ok []) :
    ∀ (ia ib : List PyVal), processMsgs f (ia ++ v :: ib) = processMsgs f (ia ++ ib)
  | [], ib => by
      simp only [List.nil_append, processMsgs, hv]
      cases h : processMsgs f ib with
      | error e => rfl
      | ok b => simp
  | a :: ia, ib => by
      simp only [List.cons_append]
      unfold processMsgs
      rw [processMsgs_drop f v hv ia ib]

theorem inEntry_congr (t t' : Trace) (hid : t'.id = t.id) (hts : t'.timestamp = t.timestamp)
    (m : PyVal) : inEntry t' m = inEntry t m := by
  cases m with
  | dict kvs => simp [inEntry, hid, hts]
  | str s => rfl
  | none => rfl
  | bool b => rfl
  | int n => rfl
  | list xs => rfl

theorem outEntry_congr (t t' : Trace) (hid : t'.id = t.id) (hts : t'.timestamp = t.timestamp)
    (m : PyVal) : outEntry t' m = outEntry t m := by
  cases m with
  | dict kvs => simp [outEntry, hid, hts]
  | str s => rfl
  | none => rfl
  | bool b => rfl
  | int n => rfl
  | list xs => rfl

theorem parseInputPart_congr (t t' : Trace) (hid : t'.id = t.id)
    (hts : t'.timestamp = t.timestamp) (hin : t'.input = t.input) :
    parseInputPart t' = parseInputPart t := by
  unfold parseInputPart
  rw [hin]
  cases h1 : hasMessages t.input with
  | error e => simp [h1]
  | ok b =>
    cases b with
    | false => simp [h1]
    | true =>
      simp only [h1]
      cases h2 : pyGetItemStr t.input "messages" with
      | error e => simp [h2]
      | ok msv =>
        simp only [h2]
        cases h3 : pyIter msv with
        | error e => simp [h3]
        | ok elems =>
          simp only [h3]
          exact processMsgs_congr _ _ (inEntry_congr t t' hid hts) elems

theorem parseOutputPart_congr (t t' : Trace) (hid : t'.id = t.id)
    (hts : t'.timestamp = t.timestamp) (hout : t'.output = t.output) :
    parseOutputPart t' = parseOutputPart t := by
  unfold parseOutputPart
  rw [hout]
  cases h1 : hasMessages t.output with
  | error e => simp [h1]
  | ok b =>
    cases b with
    | false => simp [h1]
    | true =>
      simp only [h1]
      cases h2 : pyGetItemStr t.output "messages" with
      | error e => simp [h2]
      | ok msv =>
        simp only [h2]
        cases h3 : pyIter msv with
        | error e => simp [h3]
        | ok elems =>
          simp only [h3]
          exact processMsgs_congr _ _ (outEntry_congr t t' hid hts) elems

/-- Claim C10 (confirmed): non-dict elements of `trace.input.messages` or
`trace.output.messages` (for example bare strings) are silently dropped by
`parse_trace_messages` — they produce no entry and no exception, and the
remaining messages are processed exactly as if the non-dict element were not
there: a trace `t` with a non-dict `v` among the messages of either its input
block or its output block parses identically to a trace `t'` (same id and
timestamp, the other block unchanged — it may have any shape, including
absent) with that element removed. -/
theorem c10_nondict_dropped (t t' : Trace) (v : PyVal)
    (hid : t'.id = t.id) (hts : t'.timestamp = t.timestamp)
    (hv : v.isDict = false)
    (hdrop :
      (∃ kvs kvs' pre post,
        t.input = PyVal.dict kvs ∧
        lookupKey kvs "messages" = some (PyVal.list (pre ++ v :: post)) ∧
        t'.input = PyVal.dict kvs' ∧
        lookupKey kvs' "messages" = some (PyVal.list (pre ++ post)) ∧
        t'.output = t.output) ∨
      (∃ kvs kvs' pre post,
        t.output = PyVal.dict kvs ∧
        lookupKey kvs "messages" = some (PyVal.list (pre ++ v :: post)) ∧
        t'.output = PyVal.dict kvs' ∧
        lookupKey kvs' "messages" = some (PyVal.list (pre ++ post)) ∧
        t'.input = t.input)) :
    parse_trace_messages t = parse_trace_messages t' := by
  rcases hdrop with ⟨kvs, kvs', pre, post, hin, hmi, hin', hmi', houtEq⟩ |
    ⟨kvs, kvs', pre, post, hout, hmo, hout', hmo', hinEq⟩
  · have hpin : parseInputPart t = parseInputPart t' := by
      rw [parseInputPart_dict t kvs _ hin hmi, parseInputPart_dict t' kvs' _ hin' hmi']
      rw [processMsgs_drop (inEntry t) v (inEntry_nondict t v hv) pre post]
      exact (processMsgs_congr _ _ (inEntry_congr t t' hid hts) (pre ++ post)).symm
    have hpout : parseOutputPart t = parseOutputPart t' :=
      (parseOutputPart_congr t t' hid hts houtEq).symm
    unfold parse_trace_messages
    rw [hpin, hpout]
  · have hpout : parseOutputPart t = parseOutputPart t' := by
      rw [parseOutputPart_dict t kvs _ hout hmo, parseOutputPart_dict t' kvs' _ hout' hmo']
      rw [processMsgs_drop (outEntry t) v (outEntry_nondict t v hv) pre post]
      exact (processMsgs_congr _ _ (outEntry_congr t t' hid hts) (pre ++ post)).symm
    have hpin : parseInputPart t = parseInputPart t' :=
      (parseInputPart_congr t t' hid hts hinEq).symm
    unfold parse_trace_messages
    rw [hpin, hpout]

/-- A C10 witness trace: a bare string among the input messages, output
absent altogether. -/
def c10TraceIn : Trace :=
  { id := "t_c10i", timestamp := "2024-01-01T00:00:00Z", name := Option.none,
    input := PyVal.dict [("messages", PyVal.list [demoHuman, PyVal.str "stray"])],
    output := PyVal.none,
    session_id := Option.none, user_id := Option.none, metadata := PyVal.none }

/-- `c10TraceIn` with the bare string removed. -/
def c10TraceInPruned : Trace :=
  { id := "t_c10i", timestamp := "2024-01-01T00:00:00Z", name := Option.none,
    input := PyVal.dict [("messages", PyVal.list [demoHuman])],
    output := PyVal.none,
    session_id := Option.none, user_id := Option.none, metadata := PyVal.none }

/-- A C10 witness trace: an integer among the output messages, input absent
altogether. -/
def c10TraceOut : Trace :=
  { id := "t_c10o", timestamp := "2024-01-01T00:00:00Z", name := Option.none,
    input := PyVal.none,
    output := PyVal.dict [("messages", PyVal.list [PyVal.int 7, demoAiParts])],
    session_id := Option.none, user_id := Option.none, metadata := PyVal.none }

/-- `c10TraceOut` with the integer removed. -/
def c10TraceOutPruned : Trace :=
  { id := "t_c10o", timestamp := "2024-01-01T00:00:00Z", name := Option.none,
    input := PyVal.none,
    output := PyVal.dict [("messages", PyVal.list [demoAiParts])],
    session_id := Option.none, user_id := Option.none, metadata := PyVal.none }

/-- Witness for C10, exercising each side of the disjunction: a stray string
only in the input messages (output absent), and a stray integer only in the
output messages (input absent). -/
theorem c10_nondict_dropped_witness :
    parse_trace_messages c10TraceIn = parse_trace_messages c10TraceInPruned ∧
      parse_trace_messages c10TraceOut = parse_trace_messages c10TraceOutPruned :=
  ⟨c10_nondict_dropped c10TraceIn c10TraceInPruned (PyVal.str "stray") rfl rfl
      (by decide)
      (Or.inl ⟨[("messages", PyVal.list [demoHuman, PyVal.str "stray"])],
        [("messages", PyVal.list [demoHuman])], [demoHuman], [],
        rfl, by rfl, rfl, by rfl, rfl⟩),
   c10_nondict_dropped c10TraceOut c10TraceOutPruned (PyVal.int 7) rfl rfl
      (by decide)
      (Or.inr ⟨[("messages", PyVal.list [PyVal.int 7, demoAiParts])],
        [("messages", PyVal.list [demoAiParts])], [], [demoAiParts],
        rfl, by rfl, rfl, by rfl, rfl⟩)⟩

/-!
## C5 — thread-id derivation
-/

/-- A trace whose `session_id` is set but empty. -/
def c5CexTrace : Trace :=
  { id := "t_c5", timestamp := "2024-01-01T00:00:00Z", name := Option.none,
    input := PyVal.none, output := PyVal.none,
    session_id := some "", user_id := Option.none, metadata := PyVal.none }

/-- A session holding `c5CexTrace`. -/
def c5CexSession : Session :=
  { id := "S", created_at := "c", project_id := "p", environment := Option.none,
    traces := [c5CexTrace] }

/-- Counterexample to C5 as stated: for a trace with no metadata whose
`session_id` is set to the empty string, the claim says the thread id is that
`session_id` (`""`), but Python's `trace.session_id or session.id` treats the
empty string as falsy and the code groups the trace under the session's own
id `"S"`. -/
theorem c5_thread_id_counterexample :
    threadIdOf c5CexSession c5CexTrace = Except.ok (PyVal.str "S") ∧
      c5CexTrace.session_id = some "" ∧
      parse_session_to_chat_format c5CexSession = Except.ok
        [(PyVal.str "S",
          { messages := []
            metadata := { thread_id := PyVal.str "S", session_id := "S",
                          created_at := "c", project_id := "p",
                          environment := Option.none } })] ∧
      PyVal.str "S" ≠ PyVal.str "" :=
  ⟨rfl, rfl, rfl, by decide⟩

/-- The metadata of a trace neither overrides nor raises: it is absent
(`None`) or a dict without a `thread_id` key. -/
def metadataLacksThreadId (t : Trace) : Prop :=
  t.metadata = PyVal.none ∨
    (∃ kvs, t.metadata = PyVal.dict kvs ∧ lookupKey kvs "thread_id" = Option.none)

/-- Claim C5 (amended): the thread id is `trace.metadata['thread_id']` when
the metadata is a dict containing that key; otherwise `trace.session_id` when
that is set *and non-empty*; otherwise the session's own id (a set-but-empty
`session_id` falls through to the session id, because Python's `or` tests
truthiness, not presence). -/
theorem c5_thread_id_amended (s : Session) (t : Trace) :
    (∀ kvs v, t.metadata = PyVal.dict kvs → lookupKey kvs "thread_id" = some v →
        threadIdOf s t = Except.ok v) ∧
      (∀ sid, metadataLacksThreadId t → t.session_id = some sid → sid ≠ "" →
        threadIdOf s t = Except.ok (PyVal.str sid)) ∧
      (metadataLacksThreadId t → (t.session_id = Option.none ∨ t.session_id = some "") →
        threadIdOf s t = Except.ok (PyVal.str s.id)) := by
  refine ⟨?_, ?_, ?_⟩
  · intro kvs v hmeta hkey
    have hne : kvs ≠ [] := lookupKey_ne_nil kvs "thread_id" v hkey
    have hany := lookupKey_any kvs "thread_id" v hkey
    simp [threadIdOf, hmeta, PyVal.truthy, hne, pyContains, hany, pyGetItemStr, hkey]
  · intro sid hmeta hsid hne
    rcases hmeta with h | ⟨kvs, hm, hl⟩
    · simp [threadIdOf, h, PyVal.truthy, hsid, hne]
    · by_cases hnil : kvs = []
      · subst hnil
        simp [threadIdOf, hm, PyVal.truthy, hsid, hne]
      · have hany := lookupKey_none_any kvs "thread_id" hl
        simp [threadIdOf, hm, PyVal.truthy, hnil, pyContains, hany, hsid, hne]
  · intro hmeta hsid
    rcases hmeta with h | ⟨kvs, hm, hl⟩
    · rcases hsid with hs | hs
      · simp [threadIdOf, h, PyVal.truthy, hs]
      · simp [threadIdOf, h, PyVal.truthy, hs]
    · by_cases hnil : kvs = []
      · subst hnil
        rcases hsid with hs | hs
        · simp [threadIdOf, hm, PyVal.truthy, hs]
        · simp [threadIdOf, hm, PyVal.truthy, hs]
      · have hany := lookupKey_none_any kvs "thread_id" hl
        rcases hsid with hs | hs
        · simp [threadIdOf, hm, PyVal.truthy, hnil, pyContains, hany, hs]
        · simp [threadIdOf, hm, PyVal.truthy, hnil, pyContains, hany, hs]

/-- A trace whose metadata carries a `thread_id`. -/
def c5MetaTrace : Trace :=
  { id := "t_m", timestamp := "2024-01-01T00:00:00Z", name := Option.none,
    input := PyVal.none, output := PyVal.none,
    session_id := some "sess_x", user_id := Option.none,
    metadata := PyVal.dict [("thread_id", PyVal.str "T42")] }

/-- A trace with no metadata and a non-empty `session_id`. -/
def c5SidTrace : Trace :=
  { id := "t_s", timestamp := "2024-01-01T00:00:00Z", name := Option.none,
    input := PyVal.none, output := PyVal.none,
    session_id := some "sess_x", user_id := Option.none, metadata := PyVal.none }

/-- Witness for the amended C5, exercising all three derivation cases at
concrete inputs. -/
theorem c5_thread_id_amended_witness :
    threadIdOf c5CexSession c5MetaTrace = Except.ok (PyVal.str "T42") ∧
      threadIdOf c5CexSession c5SidTrace = Except.ok (PyVal.str "sess_x") ∧
      threadIdOf c5CexSession c5CexTrace = Except.ok (PyVal.str "S") :=
  ⟨(c5_thread_id_amended c5CexSession c5MetaTrace).1 [("thread_id", PyVal.str "T42")]
      (PyVal.str "T42") rfl rfl,
   (c5_thread_id_amended c5CexSession c5SidTrace).2.1 "sess_x" (Or.inl rfl) rfl (by decide),
   (c5_thread_id_amended c5CexSession c5CexTrace).2.2 (Or.inl rfl) (Or.inr rfl)⟩

/-!
## C6 — per-thread messages sorted by timestamp
-/

theorem threadLookup_map_sort : ∀ (l : List (PyVal × ThreadData)) (k : PyVal),
    threadLookup (l.map (fun kv =>
        (kv.1, { kv.2 with messages := kv.2.messages.insertionSort msgLe }))) k =
      (threadLookup l k).map (fun td => { td with messages := td.messages.insertionSort msgLe })
  | [], _ => rfl
  | (k', td) :: rest, k => by
      by_cases hk : k' = k
      · simp [threadLookup, hk]
      · simp [threadLookup, hk, threadLookup_map_sort rest k]

theorem parse_session_lookup (s : Session) (thr : List (PyVal × ThreadData))
    (k : PyVal) (td : ThreadData)
    (hs : parse_session_to_chat_format s = Except.ok thr)
    (hl : threadLookup thr k = some td) :
    ∃ thr0 td0, buildThreads s = Except.ok thr0 ∧ threadLookup thr0 k = some td0 ∧
      td.messages = td0.messages.insertionSort msgLe := by
  unfold parse_session_to_chat_format at hs
  cases hb : buildThreads s with
  | error e => rw [hb] at hs; exact Except.noConfusion hs
  | ok thr0 =>
    rw [hb] at hs
    simp only [Except.ok.injEq] at hs
    subst hs
    rw [threadLookup_map_sort] at hl
    cases hl0 : threadLookup thr0 k with
    | none => rw [hl0] at hl; exact Option.noConfusion hl
    | some td0 =>
      rw [hl0] at hl
      simp only [Option.map_some', Option.some.injEq] at hl
      exact ⟨thr0, td0, rfl, hl0, by rw [← hl]⟩

/-- Claim C6 (confirmed): within each thread of the parse result the message
list is sorted by timestamp ascending — for traces `tA`, `tB` of the same
thread with `tA.timestamp < tB.timestamp`, every entry carrying `tA`'s
timestamp and id sits at a strictly smaller index than every entry carrying
`tB`'s, regardless of the order of the trace array. -/
theorem c6_thread_sorted (s : Session) (thr : List (PyVal × ThreadData)) (k : PyVal)
    (td : ThreadData) (tA tB : Trace) (i j : Nat)
    (hs : parse_session_to_chat_format s = Except.ok thr)
    (hl : threadLookup thr k = some td)
    (hA : tA ∈ s.traces) (hB : tB ∈ s.traces)
    (hkA : threadIdOf s tA = Except.ok k) (hkB : threadIdOf s tB = Except.ok k)
    (hlt : strLtb tA.timestamp tB.timestamp = true)
    (hi : i < td.messages.length) (hj : j < td.messages.length)
    (hti : (td.messages.get ⟨i, hi⟩).timestamp = tA.timestamp ∧
      (td.messages.get ⟨i, hi⟩).trace_id = tA.id)
    (htj : (td.messages.get ⟨j, hj⟩).timestamp = tB.timestamp ∧
      (td.messages.get ⟨j, hj⟩).trace_id = tB.id) :
    i < j := by
  obtain ⟨thr0, td0, hb, hl0, hmsg⟩ := parse_session_lookup s thr k td hs hl
  have hsort : td.messages.Sorted msgLe := by
    rw [hmsg]
    exact List.sorted_insertionSort msgLe td0.messages
  rcases Nat.lt_trichotomy i j with h | h | h
  · exact h
  · exfalso
    subst h
    have hts : tB.timestamp = tA.timestamp := by
      rw [← htj.1, ← hti.1]
    have h1 : strLtb tA.timestamp tA.timestamp = true := by
      rw [hts] at hlt
      exact hlt
    have h2 := strLtb_not_ge _ _ h1
    rw [strLeb_refl] at h2
    exact Bool.noConfusion h2
  · exfalso
    have hrel : msgLe (td.messages.get ⟨j, hj⟩) (td.messages.get ⟨i, hi⟩) :=
      hsort.rel_get_of_lt h
    unfold msgLe at hrel
    rw [hti.1, htj.1] at hrel
    have h2 := strLtb_not_ge _ _ hlt
    rw [hrel] at h2
    exact Bool.noConfusion h2

/-- The earlier trace of the C6/C9 witness session. -/
def c6TraceA : Trace :=
  { id := "tr_a", timestamp := "2024-01-01T11:00:00Z", name := Option.none,
    input := PyVal.dict [("messages", PyVal.list [demoHuman])], output := PyVal.none,
    session_id := some "TH", user_id := Option.none, metadata := PyVal.none }

/-- The later trace of the C6/C9 witness session. -/
def c6TraceB : Trace :=
  { id := "tr_b", timestamp := "2024-01-01T12:00:00Z", name := Option.none,
    input := PyVal.dict [("messages", PyVal.list [demoHuman])], output := PyVal.none,
    session_id := some "TH", user_id := Option.none, metadata := PyVal.none }

/-- A session whose trace array lists the later trace first. -/
def c6Session : Session :=
  { id := "S6", created_at := "c6", project_id := "p6", environment := Option.none,
    traces := [c6TraceB, c6TraceA] }

/-- The thread data the parser produces for `c6Session`: the two entries in
timestamp order despite the reversed input order. -/
def c6Td : ThreadData :=
  { messages :=
      [{ type := "user", content := PyVal.str "What is the weather in Paris?",
         timestamp := "2024-01-01T11:00:00Z", trace_id := "tr_a" },
       { type := "user", content := PyVal.str "What is the weather in Paris?",
         timestamp := "2024-01-01T12:00:00Z", trace_id := "tr_b" }]
    metadata := { thread_id := PyVal.str "TH", session_id := "S6", created_at := "c6",
                  project_id := "p6", environment := Option.none } }

/-- Witness for C6 at `c6Session`: the parse result is as computed, and the
entry of the earlier trace (index 0) precedes the entry of the later trace
(index 1). -/
theorem c6_thread_sorted_witness :
    parse_session_to_chat_format c6Session = Except.ok [(PyVal.str "TH", c6Td)] ∧
      (0 : Nat) < 1 :=
  ⟨rfl,
   c6_thread_sorted c6Session [(PyVal.str "TH", c6Td)] (PyVal.str "TH") c6Td
     c6TraceA c6TraceB 0 1 rfl rfl (by decide) (by decide) rfl rfl (by decide)
     (by decide) (by decide) ⟨rfl, rfl⟩ ⟨rfl, rfl⟩⟩


/-!
## C1 — tool-call / tool-output pairing
-/

/-- Last-match lookup over the messages: the content recorded in the Python
dict after the full pass (later `tool` messages with the same id overwrite
earlier ones). -/
def lastToolOutput : List PyVal → PyVal → Option PyVal
  | [], _ => Option.none
  | m :: rest, cid =>
    match lastToolOutput rest cid with
    | some v => some v
    | Option.none =>
      if typeTagOf m = PyVal.str "tool" ∧ pyGetD m "tool_call_id" PyVal.none = cid
      then some (pyGetD m "content" PyVal.none)
      else Option.none

theorem firstToolOutput_cons (m : PyVal) (rest : List PyVal) (cid : PyVal) :
    firstToolOutput (m :: rest) cid =
      if typeTagOf m = PyVal.str "tool" ∧ pyGetD m "tool_call_id" PyVal.none = cid
      then some (pyGetD m "content" PyVal.none)
      else firstToolOutput rest cid := rfl

theorem lastToolOutput_cons (m : PyVal) (rest : List PyVal) (cid : PyVal) :
    lastToolOutput (m :: rest) cid =
      match lastToolOutput rest cid with
      | some v => some v
      | Option.none =>
        if typeTagOf m = PyVal.str "tool" ∧ pyGetD m "tool_call_id" PyVal.none = cid
        then some (pyGetD m "content" PyVal.none)
        else Option.none := rfl

theorem mapGetPV_cons (k0 v0 : PyVal) (rest : List (PyVal × PyVal)) (k : PyVal) :
    mapGetPV ((k0, v0) :: rest) k = if k0 = k then some v0 else mapGetPV rest k := rfl

theorem buildToolMap_lookup : ∀ (msgs : List PyVal) (acc : List (PyVal × PyVal)) (cid : PyVal),
    mapGetPV (buildToolMap acc msgs) cid =
      match lastToolOutput msgs cid with
      | some v => some v
      | Option.none => mapGetPV acc cid
  | [], _, _ => rfl
  | m :: rest, acc, cid => by
      rw [lastToolOutput_cons]
      by_cases htool : typeTagOf m = PyVal.str "tool"
      · have hstep : buildToolMap acc (m :: rest) =
            buildToolMap (if typeTagOf m = PyVal.str "tool"
              then (pyGetD m "tool_call_id" PyVal.none,
                pyGetD m "content" PyVal.none) :: acc
              else acc) rest := rfl
        rw [if_pos htool] at hstep
        rw [hstep, buildToolMap_lookup rest _ cid]
        cases hrest : lastToolOutput rest cid with
        | some v => rfl
        | none =>
          by_cases hcid : pyGetD m "tool_call_id" PyVal.none = cid
          · simp only [mapGetPV_cons, if_pos hcid, if_pos (And.intro htool hcid)]
          · simp only [mapGetPV_cons, if_neg hcid,
              if_neg (fun hh : _ ∧ _ => hcid hh.2)]
      · have hstep : buildToolMap acc (m :: rest) =
            buildToolMap (if typeTagOf m = PyVal.str "tool"
              then (pyGetD m "tool_call_id" PyVal.none,
                pyGetD m "content" PyVal.none) :: acc
              else acc) rest := rfl
        rw [if_neg htool] at hstep
        rw [hstep, buildToolMap_lookup rest acc cid]
        cases hrest : lastToolOutput rest cid with
        | some v => rfl
        | none =>
          simp only [if_neg (fun hh : _ ∧ _ => htool hh.1)]

theorem toolIdsOf_cons (m : PyVal) (rest : List PyVal) :
    toolIdsOf (m :: rest) =
      if typeTagOf m = PyVal.str "tool"
      then pyGetD m "tool_call_id" PyVal.none :: toolIdsOf rest
      else toolIdsOf rest := by
  by_cases h : typeTagOf m = PyVal.str "tool"
  · simp [toolIdsOf, List.filter_cons, h]
  · simp [toolIdsOf, List.filter_cons, h]

theorem lastToolOutput_mem_ids : ∀ (msgs : List PyVal) (cid v : PyVal),
    lastToolOutput msgs cid = some v → cid ∈ toolIdsOf msgs
  | [], _, _, h => by simp [lastToolOutput] at h
  | m :: rest, cid, v, h => by
      rw [toolIdsOf_cons]
      rw [lastToolOutput_cons] at h
      cases hrest : lastToolOutput rest cid with
      | some w =>
        have hmem := lastToolOutput_mem_ids rest cid w hrest
        by_cases htool : typeTagOf m = PyVal.str "tool"
        · rw [if_pos htool]
          exact List.mem_cons_of_mem _ hmem
        · rw [if_neg htool]
          exact hmem
      | none =>
        rw [hrest] at h
        by_cases hcond : typeTagOf m = PyVal.str "tool" ∧
            pyGetD m "tool_call_id" PyVal.none = cid
        · rw [if_pos hcond.1]
          exact hcond.2 ▸ List.mem_cons_self _ _
        · simp only [if_neg hcond] at h
          exact absurd h (by simp)

theorem firstToolOutput_eq_last : ∀ (msgs : List PyVal) (cid : PyVal),
    (toolIdsOf msgs).Nodup → firstToolOutput msgs cid = lastToolOutput msgs cid
  | [], _, _ => rfl
  | m :: rest, cid, hnd => by
      rw [toolIdsOf_cons] at hnd
      rw [firstToolOutput_cons, lastToolOutput_cons]
      by_cases htool : typeTagOf m = PyVal.str "tool"
      · rw [if_pos htool] at hnd
        obtain ⟨hnotin, hndrest⟩ := List.nodup_cons.mp hnd
        by_cases hcid : pyGetD m "tool_call_id" PyVal.none = cid
        · have hlastrest : lastToolOutput rest cid = Option.none := by
            cases hr : lastToolOutput rest cid with
            | none => rfl
            | some w =>
              exact absurd (hcid ▸ lastToolOutput_mem_ids rest cid w hr) hnotin
          simp only [hlastrest, if_pos (And.intro htool hcid)]
        · rw [if_neg (fun hh : _ ∧ _ => hcid hh.2),
            firstToolOutput_eq_last rest cid hndrest]
          cases hr : lastToolOutput rest cid with
          | some w => rfl
          | none =>
            simp only [if_neg (fun hh : _ ∧ _ => hcid hh.2)]
      · rw [if_neg htool] at hnd
        rw [if_neg (fun hh : _ ∧ _ => htool hh.1),
          firstToolOutput_eq_last rest cid hnd]
        cases hr : lastToolOutput rest cid with
        | some w => rfl
        | none =>
          simp only [if_neg (fun hh : _ ∧ _ => htool hh.1)]

theorem sublist_flatMap_of_mem {α β : Type} (f : α → List β) :
    ∀ (l : List α) (a : α), a ∈ l → (f a).Sublist (l.flatMap f)
  | [], a, h => absurd h (List.not_mem_nil a)
  | x :: xs, a, h => by
      rw [List.flatMap_cons]
      rcases List.mem_cons.mp h with h | h
      · subst h
        exact List.sublist_append_left (f a) (xs.flatMap f)
      · exact (sublist_flatMap_of_mem f xs a h).trans
          (List.sublist_append_right (f x) (xs.flatMap f))

/-- Claim C1 (confirmed, spec-modelled): for every output message list whose
`tool`-typed messages carry pairwise distinct `tool_call_id`s, each `ai`
message's `tool_calls` entries are emitted by `simplify_output_messages`, in
the order given, as items `tool (id, name, formatToolInput args, output)`
where `output` is the content of the `tool`-typed message whose
`tool_call_id` equals the call's id, or `null` if no such message exists. -/
theorem c1_tool_pairing (msgs : List PyVal) (m : PyVal)
    (hu : (toolIdsOf msgs).Nodup)
    (hm : m ∈ msgs) (hai : typeTagOf m = PyVal.str "ai") :
    ((toolCallsOf m).map (fun c =>
      OutputItem.tool (pyGetD c "id" PyVal.none) (pyGetD c "name" PyVal.none)
        (format_tool_input (pyGetD c "args" PyVal.none))
        (firstToolOutput msgs (pyGetD c "id" PyVal.none)))).Sublist
      (simplify_output_messages msgs) := by
  have hmapeq : ∀ cid : PyVal,
      mapGetPV (toolOutputMap msgs) cid = firstToolOutput msgs cid := by
    intro cid
    rw [toolOutputMap, buildToolMap_lookup msgs [] cid,
      firstToolOutput_eq_last msgs cid hu]
    cases h : lastToolOutput msgs cid with
    | some v => rfl
    | none => rfl
  have hitems : ((toolCallsOf m).map (emitToolItem (toolOutputMap msgs))) =
      (toolCallsOf m).map (fun c =>
        OutputItem.tool (pyGetD c "id" PyVal.none) (pyGetD c "name" PyVal.none)
          (format_tool_input (pyGetD c "args" PyVal.none))
          (firstToolOutput msgs (pyGetD c "id" PyVal.none))) := by
    apply List.map_congr_left
    intro c _
    unfold emitToolItem
    rw [hmapeq]
  have hsub1 : ((toolCallsOf m).map (emitToolItem (toolOutputMap msgs))).Sublist
      (emitMsg (toolOutputMap msgs) m) := by
    unfold emitMsg
    rw [if_pos hai]
    exact List.sublist_append_right _ _
  have hsub2 : (emitMsg (toolOutputMap msgs) m).Sublist (simplify_output_messages msgs) :=
    sublist_flatMap_of_mem (emitMsg (toolOutputMap msgs)) msgs m hm
  rw [← hitems]
  exact hsub1.trans hsub2

/-- The C1 witness `ai` message: one text part and one tool call. -/
def c1Ai : PyVal :=
  PyVal.dict [("type", PyVal.str "ai"),
    ("content", PyVal.list
      [PyVal.dict [("type", PyVal.str "text"),
        ("text", PyVal.str "I will check the weather for you.")]]),
    ("tool_calls", PyVal.list
      [PyVal.dict [("id", PyVal.str "tool_001"), ("name", PyVal.str "get_weather"),
        ("args", PyVal.dict [("city", PyVal.str "Paris")])]])]

/-- The C1 witness message list: the `ai` message, its tool result, and a
final `ai` message (the shape used by the repository's own tests). -/
def c1Msgs : List PyVal :=
  [c1Ai,
   PyVal.dict [("type", PyVal.str "tool"), ("tool_call_id", PyVal.str "tool_001"),
     ("content", PyVal.str "Weather in Paris: 22C, sunny")],
   PyVal.dict [("type", PyVal.str "ai"),
     ("content", PyVal.list
       [PyVal.dict [("type", PyVal.str "text"),
         ("text", PyVal.str "The weather in Paris is 22C.")]])]]

/-- Witness for C1 at the test scenario. -/
theorem c1_tool_pairing_witness :
    ((toolCallsOf c1Ai).map (fun c =>
      OutputItem.tool (pyGetD c "id" PyVal.none) (pyGetD c "name" PyVal.none)
        (format_tool_input (pyGetD c "args" PyVal.none))
        (firstToolOutput c1Msgs (pyGetD c "id" PyVal.none)))).Sublist
      (simplify_output_messages c1Msgs) :=
  c1_tool_pairing c1Msgs c1Ai (by decide) (by decide) (by decide)

/-!
## C9 — entry shape, provenance, and stable input-before-output order
-/

/-- Claim-side accumulation: the messages the trace loop appends to thread
`k`, in trace order — each trace whose derived thread id is `k` contributes
its parsed messages as one contiguous block. -/
def collectThreadMsgs (s : Session) (k : PyVal) : List Trace → Except String (List ChatMsg)
  | [] => Except.ok []
  | t :: ts =>
    match threadIdOf s t with
    | Except.error e => Except.error e
    | Except.ok tid =>
      match parse_trace_messages t with
      | Except.error e => Except.error e
      | Except.ok ms =>
        match collectThreadMsgs s k ts with
        | Except.error e => Except.error e
        | Except.ok rest => Except.ok (if tid = k then ms ++ rest else rest)

/-- The message list of an optional thread entry (`[]` when absent). -/
def optMsgs : Option ThreadData → List ChatMsg
  | some td => td.messages
  | Option.none => []

theorem threadLookup_extendAt :
    ∀ (l : List (PyVal × ThreadData)) (tid : PyVal) (ms : List ChatMsg) (k : PyVal),
      threadLookup (extendAt l tid ms) k =
        if k = tid
        then (threadLookup l k).map (fun td => { td with messages := td.messages ++ ms })
        else threadLookup l k
  | [], tid, ms, k => by
      by_cases h : k = tid
      · simp [extendAt, threadLookup, h]
      · simp [extendAt, threadLookup, h]
  | (k0, td0) :: rest, tid, ms, k => by
      by_cases h0 : k0 = tid
      · subst h0
        by_cases hk : k0 = k
        · subst hk
          simp [extendAt, threadLookup]
        · have hkt : ¬ k = k0 := fun hh => hk (Eq.symm hh)
          simp [extendAt, threadLookup, hk, hkt]
      · by_cases hk : k0 = k
        · subst hk
          have hkt : ¬ k0 = tid := h0
          simp [extendAt, threadLookup, hkt]
        · simp [extendAt, threadLookup, h0, hk, threadLookup_extendAt rest tid ms k]

theorem threadLookup_append_single :
    ∀ (l : List (PyVal × ThreadData)) (tid : PyVal) (d : ThreadData) (k : PyVal),
      threadLookup (l ++ [(tid, d)]) k =
        match threadLookup l k with
        | some td => some td
        | Option.none => if k = tid then some d else Option.none
  | [], tid, d, k => by
      by_cases h : tid = k
      · simp [threadLookup, h]
      · have h' : ¬ k = tid := fun hh => h (Eq.symm hh)
        simp [threadLookup, h, h']
  | (k0, td0) :: rest, tid, d, k => by
      by_cases h0 : k0 = k
      · simp [threadLookup, h0]
      · simp [threadLookup, h0, threadLookup_append_single rest tid d k]

theorem containsKeyT_eq_isSome : ∀ (l : List (PyVal × ThreadData)) (k : PyVal),
    containsKeyT l k = (threadLookup l k).isSome
  | [], _ => rfl
  | (k0, td0) :: rest, k => by
      by_cases h0 : k0 = k
      · simp [containsKeyT, threadLookup, h0]
      · simp [containsKeyT, threadLookup, h0, ← containsKeyT_eq_isSome rest k]

theorem buildThreadsAux_msgs (s : Session) :
    ∀ (ts : List Trace) (acc thr : List (PyVal × ThreadData)),
      buildThreadsAux s acc ts = Except.ok thr → ∀ k : PyVal,
      ∃ cs, collectThreadMsgs s k ts = Except.ok cs ∧
        ∀ td', threadLookup thr k = some td' →
          td'.messages = optMsgs (threadLookup acc k) ++ cs
  | [], acc, thr, h, k => by
      simp only [buildThreadsAux, Except.ok.injEq] at h
      subst h
      refine ⟨[], rfl, ?_⟩
      intro td' hl
      rw [hl]
      simp [optMsgs]
  | t :: ts, acc, thr, h, k => by
      unfold buildThreadsAux at h
      cases hadd : addTraceThreads s acc t with
      | error e => rw [hadd] at h; exact absurd h (by simp)
      | ok acc₁ =>
        rw [hadd] at h
        unfold addTraceThreads at hadd
        cases hk1 : threadIdOf s t with
        | error e => rw [hk1] at hadd; exact absurd hadd (by simp)
        | ok tid =>
          rw [hk1] at hadd
          cases hp : parse_trace_messages t with
          | error e => simp only [hp] at hadd; exact absurd hadd (by simp)
          | ok ms =>
            simp only [hp, Except.ok.injEq] at hadd
            obtain ⟨cs', hc', hmsg'⟩ := buildThreadsAux_msgs s ts acc₁ thr h k
            refine ⟨if tid = k then ms ++ cs' else cs', ?_, ?_⟩
            · unfold collectThreadMsgs
              rw [hk1, hp, hc']
            · intro td' hltd
              have hstep := hmsg' td' hltd
              have hacc1 : optMsgs (threadLookup acc₁ k) =
                  optMsgs (threadLookup acc k) ++ (if tid = k then ms else []) := by
                rw [← hadd, threadLookup_extendAt]
                by_cases hkt : k = tid
                · subst hkt
                  rw [if_pos rfl, if_pos rfl]
                  cases hct : containsKeyT acc k with
                  | true =>
                    rw [if_pos rfl]
                    have hsome : (threadLookup acc k).isSome = true := by
                      rw [← containsKeyT_eq_isSome]; exact hct
                    cases hlac : threadLookup acc k with
                    | none => rw [hlac] at hsome; exact absurd hsome (by simp)
                    | some td0 => rfl
                  | false =>
                    rw [if_neg Bool.false_ne_true]
                    have hnone : threadLookup acc k = Option.none := by
                      have hsome : (threadLookup acc k).isSome = false := by
                        rw [← containsKeyT_eq_isSome]; exact hct
                      cases hlac : threadLookup acc k with
                      | none => rfl
                      | some td0 => rw [hlac] at hsome; exact absurd hsome (by simp)
                    rw [threadLookup_append_single, hnone, if_pos rfl]
                    rfl
                · have htk : ¬ tid = k := fun hh => hkt (Eq.symm hh)
                  rw [if_neg hkt, if_neg htk]
                  cases hct : containsKeyT acc tid with
                  | true =>
                    rw [if_pos rfl]
                    simp [optMsgs]
                  | false =>
                    rw [if_neg Bool.false_ne_true]
                    rw [threadLookup_append_single]
                    cases hlac : threadLookup acc k with
                    | none => rw [if_neg hkt]; simp [optMsgs]
                    | some td0 => simp [optMsgs]
              rw [hstep, hacc1, List.append_assoc]
              by_cases htk : tid = k
              · rw [if_pos htk, if_pos htk]
              · rw [if_neg htk, if_neg htk]
                rfl

theorem collectThreadMsgs_block (s : Session) (k : PyVal) :
    ∀ (ts : List Trace) (cs : List ChatMsg) (t : Trace) (es : List ChatMsg),
      collectThreadMsgs s k ts = Except.ok cs → t ∈ ts →
      threadIdOf s t = Except.ok k → parse_trace_messages t = Except.ok es →
      ∃ pre post, cs = pre ++ (es ++ post)
  | [], cs, t, es, _, hmem, _, _ => absurd hmem (List.not_mem_nil t)
  | t' :: ts, cs, t, es, hc, hmem, hk, hp => by
      unfold collectThreadMsgs at hc
      cases h1 : threadIdOf s t' with
      | error e => rw [h1] at hc; exact absurd hc (by simp)
      | ok tid' =>
        rw [h1] at hc
        cases h2 : parse_trace_messages t' with
        | error e => simp only [h2] at hc; exact absurd hc (by simp)
        | ok ms' =>
          simp only [h2] at hc
          cases h3 : collectThreadMsgs s k ts with
          | error e => simp only [h3] at hc; exact absurd hc (by simp)
          | ok rest =>
            simp only [h3, Except.ok.injEq] at hc
            rcases List.mem_cons.mp hmem with hmm | hmm
            · subst hmm
              rw [hk] at h1
              have htid : tid' = k := by
                injection h1 with hh
                exact Eq.symm hh
              rw [hp] at h2
              have hms : ms' = es := by
                injection h2 with hh
                exact Eq.symm hh
              refine ⟨[], rest, ?_⟩
              rw [← hc, if_pos htid, hms]
              rfl
            · obtain ⟨pre, post, heq⟩ :=
                collectThreadMsgs_block s k ts rest t es h3 hmm hk hp
              by_cases htid : tid' = k
              · refine ⟨ms' ++ pre, post, ?_⟩
                rw [← hc, if_pos htid, heq, List.append_assoc]
              · refine ⟨pre, post, ?_⟩
                rw [← hc, if_neg htid, heq]

theorem pairwise_msgLe_of_const (ts0 : String) : ∀ es : List ChatMsg,
    (∀ e ∈ es, e.timestamp = ts0) → es.Pairwise msgLe
  | [], _ => List.Pairwise.nil
  | e :: es, h => by
      constructor
      · intro b hb
        unfold msgLe
        rw [h e (List.mem_cons_self e es), h b (List.mem_cons_of_mem e hb)]
        exact strLeb_refl ts0
      · exact pairwise_msgLe_of_const ts0 es (fun x hx => h x (List.mem_cons_of_mem e hx))

/-- Claim C9 (confirmed): every entry `parse_trace_messages` emits carries
exactly the fields `type`, `content`, `timestamp`, `trace_id` (the fields of
`ChatMsg`, matching the dict keys built at lines 78–83 and 102–107), with
`timestamp` the originating trace's timestamp and `trace_id` its id; hence
all entries of one trace tie under the per-thread timestamp sort, and because
that sort is stable, the trace's input-derived entries precede its
output-derived entries — the concatenation `inp ++ out` survives as a
sublist, in order, of the final sorted thread message list. -/
theorem c9_provenance_order (s : Session) (thr : List (PyVal × ThreadData)) (k : PyVal)
    (td : ThreadData) (t : Trace) (inp out : List ChatMsg)
    (hs : parse_session_to_chat_format s = Except.ok thr)
    (hl : threadLookup thr k = some td)
    (ht : t ∈ s.traces)
    (hk : threadIdOf s t = Except.ok k)
    (hin : parseInputPart t = Except.ok inp)
    (hout : parseOutputPart t = Except.ok out) :
    (∀ e ∈ inp ++ out, e.timestamp = t.timestamp ∧ e.trace_id = t.id) ∧
      (inp ++ out).Sublist td.messages := by
  have hpt := parse_trace_messages_parts t inp out hin hout
  have hprov := parse_trace_messages_prov t (inp ++ out) hpt
  refine ⟨hprov, ?_⟩
  obtain ⟨thr0, td0, hb, hl0, hmsg⟩ := parse_session_lookup s thr k td hs hl
  obtain ⟨cs, hcs, hmm⟩ := buildThreadsAux_msgs s s.traces [] thr0 hb k
  have htd0 : td0.messages = cs := by
    have hh := hmm td0 hl0
    simpa [optMsgs, threadLookup] using hh
  obtain ⟨pre, post, hblock⟩ :=
    collectThreadMsgs_block s k s.traces cs t (inp ++ out) hcs ht hk hpt
  have hsub : (inp ++ out).Sublist cs := by
    rw [hblock]
    exact (List.sublist_append_left (inp ++ out) post).trans
      (List.sublist_append_right pre ((inp ++ out) ++ post))
  have hpair : (inp ++ out).Pairwise msgLe :=
    pairwise_msgLe_of_const t.timestamp (inp ++ out) (fun e he => (hprov e he).1)
  rw [hmsg, htd0]
  exact List.sublist_insertionSort hpair hsub

/-- The entry the parser derives from `c6TraceA`. -/
def c9EntryA : ChatMsg :=
  { type := "user", content := PyVal.str "What is the weather in Paris?",
    timestamp := "2024-01-01T11:00:00Z", trace_id := "tr_a" }

/-- Witness for C9 at `c6Session` and its earlier trace. -/
theorem c9_provenance_order_witness :
    (∀ e ∈ [c9EntryA] ++ ([] : List ChatMsg),
      e.timestamp = c6TraceA.timestamp ∧ e.trace_id = c6TraceA.id) ∧
      ([c9EntryA] ++ ([] : List ChatMsg)).Sublist c6Td.messages :=
  c9_provenance_order c6Session [(PyVal.str "TH", c6Td)] (PyVal.str "TH") c6Td
    c6TraceA [c9EntryA] [] rfl rfl (by decide) rfl rfl rfl
